import Mathlib

/-!
# gedcom: the line-stream reader

A shallow embedding of `reader.go` and `options.go`.

* `Reader.readLine` assembles one structural line from the tokens of the
  tokeniser and stores it, or an error, in the reader.
* `Reader.Record` checks the document phase (header first, at least one
  content record before the trailer), accumulates the lines of one top-level
  group and hands them to the record builder selected by the root tag.

The tokeniser, `parseLines` and the nine record builders are not part of the
two source files; they enter the embedding as data (the token stream) and as
parameters (`builders`).
-/

namespace gedcom

/-! ## Errors -/

/-- The two failure kinds of Go's `strconv` number parsers. -/
inductive NumErr where
  | ErrSyntaxKind
  | ErrRangeKind
deriving DecidableEq, Repr

/-- Error values that can travel through the reader.  The first four are
declared at the end of `reader.go`; `ErrNotLevel`, `ErrNotType` and
`ErrNotLine` are used by `readLine` and declared elsewhere in the package;
`NumError` is the error of `strconv.ParseUint` (it records the offending
text); `EOF` is `io.EOF`; `other` stands for any further error value a
tokeniser or a record builder may return. -/
inductive GoError where
  | ErrNoHeader
  | ErrNoRecords
  | ErrUnknownTag
  | ErrInvalidLevel
  | ErrNotLevel
  | ErrNotType
  | ErrNotLine
  | NumError (num : String) (kind : NumErr)
  | EOF
  | other (code : Nat)
deriving DecidableEq, Repr

/-- The structural errors of the document grammar. -/
def GoError.structural : GoError → Bool
  | .ErrNoHeader => true
  | .ErrNoRecords => true
  | .ErrInvalidLevel => true
  | _ => false

/-! ## Tokens and the tokeniser -/

/-- Modelled from the spec: the token kinds of the tokeniser, whose
declaration is not in the two source files (`Level`, `CrossRef`, `Tag`,
`Value`, `EndOfLine`); the names are the constants `readLine` compares with. -/
inductive tokenType where
  | tokenLevel
  | tokenXref
  | tokenTag
  | tokenLine
  | tokenEndLine
deriving DecidableEq, Repr

/-- A token: its kind and its raw text. -/
structure token where
  typ : tokenType
  data : String
deriving DecidableEq, Repr

instance : Inhabited token := ⟨⟨tokenType.tokenLevel, ""⟩⟩

deriving instance DecidableEq for Except

/-- The tokeniser as the reader sees it: the finite sequence of results that
successive `GetToken` calls will deliver, a token or an error each; once the
sequence is used up every further call reports `io.EOF`. -/
abbrev tokeniser := List (Except GoError token)

/-- One call of `GetToken`: the token, the error, and the tokeniser after the
call. -/
def tokeniser.GetToken : tokeniser → (token × Option GoError) × tokeniser
  | [] => ((default, some GoError.EOF), [])
  | Except.ok t :: rest => ((t, none), rest)
  | Except.error e :: rest => ((default, some e), rest)

/-! ## strconv.ParseUint, base 10, 64 bits -/

/-- The largest `uint64`. -/
def maxUint64 : Nat := 2 ^ 64 - 1

/-- The digit loop of `strconv.ParseUint(s, 10, 64)`: `n` is the value
accumulated so far.  A character that is not a decimal digit is a syntax
failure with value 0; a value that leaves 64 bits is a range failure with the
largest `uint64`. -/
def parseDigits (n : Nat) : List Char → Nat × Option NumErr
  | [] => (n, none)
  | c :: cs =>
    if c.toNat < 48 ∨ 57 < c.toNat then (0, some NumErr.ErrSyntaxKind)
    else if n ≥ maxUint64 / 10 + 1 then (maxUint64, some NumErr.ErrRangeKind)
    else if n * 10 + (c.toNat - 48) > maxUint64 then (maxUint64, some NumErr.ErrRangeKind)
    else parseDigits (n * 10 + (c.toNat - 48)) cs

/-- The call `strconv.ParseUint(s, 10, 64)`: value and error. -/
def ParseUint (s : String) : Nat × Option GoError :=
  match s.data with
  | [] => (0, some (GoError.NumError s NumErr.ErrSyntaxKind))
  | cs =>
    match parseDigits 0 cs with
    | (v, none) => (v, none)
    | (v, some k) => (v, some (GoError.NumError s k))

/-! ## Lines and the reader -/

/-- A structural line (`type line struct`). -/
structure line where
  level : Nat
  xrefID : String
  tag : String
  value : String
deriving DecidableEq, Repr

/-- The reader (`type Reader struct`). -/
structure Reader where
  t : tokeniser
  peeked : Bool
  line : line
  err : Option GoError
  hadHeader : Bool
  hadRecord : Bool
deriving DecidableEq, Repr

/-- The constructor `NewReader`: a reader over a fresh tokeniser, every other
field at its zero value. -/
def NewReader (t : tokeniser) : Reader :=
  { t := t, peeked := false, line := ⟨0, "", "", ""⟩, err := none,
    hadHeader := false, hadRecord := false }

/-- The method `readLine`, statement by statement.  With an error pending it
does nothing.  Otherwise it pulls a level token and parses its text (value and
error of `ParseUint` are both stored), pulls the next token and, when that is a
cross-reference, stores it and pulls one more, checks for the tag and stores
it, and pulls the value or the end of the line.  Every `GetToken` call
overwrites `r.err`.  Fields of `r.line` for which the line brings no token are
not written.  (The source writes `line.xrefID` and `token.typ` where the
receiver's line and the current token `t` are meant.) -/
def Reader.readLine (r : Reader) : Reader :=
  if r.err.isSome then r else
  let g := r.t.GetToken
  let t := g.1.1
  let r := { r with t := g.2, err := g.1.2 }
  if r.err.isSome then r else
  if t.typ ≠ tokenType.tokenLevel then { r with err := some GoError.ErrNotLevel } else
  let p := ParseUint t.data
  let r := { r with line := { r.line with level := p.1 }, err := p.2 }
  if r.err.isSome then r else
  let g := r.t.GetToken
  let t := g.1.1
  let r := { r with t := g.2, err := g.1.2 }
  if r.err.isSome then r else
  let rt : Reader × token :=
    if t.typ = tokenType.tokenXref then
      let r := { r with line := { r.line with xrefID := t.data } }
      let g := r.t.GetToken
      ({ r with t := g.2, err := g.1.2 }, g.1.1)
    else (r, t)
  let r := rt.1
  let t := rt.2
  if r.err.isSome then r else
  if t.typ ≠ tokenType.tokenTag then { r with err := some GoError.ErrNotType } else
  let r := { r with line := { r.line with tag := t.data } }
  let g := r.t.GetToken
  let t := g.1.1
  let r := { r with t := g.2, err := g.1.2 }
  if r.err.isSome then r else
  if t.typ = tokenType.tokenEndLine then r else
  if t.typ ≠ tokenType.tokenLine then { r with err := some GoError.ErrNotLine } else
  { r with line := { r.line with value := t.data } }

/-! ### `readLine` by cases on the stream -/

/-- The tail of `readLine` by cases on the stream: the tag and the value. -/
def Reader.tagCases (r : Reader) : Reader :=
  match r.t with
  | [] => { r with err := some GoError.EOF }
  | Except.error e :: rest => { r with t := rest, err := some e }
  | Except.ok t :: rest =>
    if t.typ ≠ tokenType.tokenTag then { r with t := rest, err := some GoError.ErrNotType }
    else
      match rest with
      | [] => { r with t := [], line := { r.line with tag := t.data }, err := some GoError.EOF }
      | Except.error e :: rest2 =>
        { r with t := rest2, line := { r.line with tag := t.data }, err := some e }
      | Except.ok v :: rest2 =>
        if v.typ = tokenType.tokenEndLine then
          { r with t := rest2, line := { r.line with tag := t.data } }
        else if v.typ ≠ tokenType.tokenLine then
          { r with t := rest2, line := { r.line with tag := t.data },
                   err := some GoError.ErrNotLine }
        else { r with t := rest2, line := { r.line with tag := t.data, value := v.data } }

/-- The middle of `readLine` by cases on the stream: the optional
cross-reference, then the tag and the value. -/
def Reader.xrefCases (r : Reader) : Reader :=
  match r.t with
  | Except.ok t :: rest =>
    if t.typ = tokenType.tokenXref then
      Reader.tagCases { r with t := rest, line := { r.line with xrefID := t.data } }
    else r.tagCases
  | _ => r.tagCases

/-- The whole of `readLine` by cases on the stream. -/
def Reader.readLineCases (r : Reader) : Reader :=
  match r.err with
  | some _ => r
  | none =>
    match r.t with
    | [] => { r with err := some GoError.EOF }
    | Except.error e :: rest => { r with t := rest, err := some e }
    | Except.ok t :: rest =>
      if t.typ ≠ tokenType.tokenLevel then { r with t := rest, err := some GoError.ErrNotLevel }
      else
        match (ParseUint t.data).2 with
        | some e =>
          { r with t := rest, line := { r.line with level := (ParseUint t.data).1 },
                   err := some e }
        | none =>
          Reader.xrefCases
            { r with t := rest, line := { r.line with level := (ParseUint t.data).1 } }

/-! ## Records and the record builders -/

/-- What `Record` can hand back as a record: the trailer marker
`RecordTrailer`, the parsed lines themselves (the fallback for tags without a
builder), or a value made by a record builder. -/
inductive Record (P B : Type) where
  | RecordTrailer
  | plines (p : P)
  | built (b : B)
deriving DecidableEq, Repr

/-- The collaborators of `Record` that are not in the two source files:
`parseLines`, which arranges the flat line buffer, and the nine record
builders, each returning a record and an error like the Go functions do. -/
structure builders (P B : Type) where
  parseLines : List line → P
  parseHeader : P → Option (Record P B) × Option GoError
  parseSubmitter : P → Option (Record P B) × Option GoError
  parseFamily : P → Option (Record P B) × Option GoError
  parseIndividual : P → Option (Record P B) × Option GoError
  parseObject : P → Option (Record P B) × Option GoError
  parseNote : P → Option (Record P B) × Option GoError
  parseRepository : P → Option (Record P B) × Option GoError
  parseSource : P → Option (Record P B) × Option GoError
  parseSubmission : P → Option (Record P B) × Option GoError

/-- The test `lines[0][0] == "_"` of the fallback branch, read as: the first
character of the root tag is the underscore.  A tag without characters has no
first character and does not pass. -/
def extensionTag (tag : String) : Bool :=
  match tag.data with
  | [] => false
  | c :: _ => c == '_'

variable {P B : Type}

/-- The `switch lines[0].tag` at the end of a group: the builder of the root
tag on the parsed lines, and for every other tag the parsed lines themselves,
without an error when the tag is an extension tag and with `ErrUnknownTag`
otherwise. -/
def dispatch (b : builders P B) (lines : List line) :
    Option (Record P B) × Option GoError :=
  let plines := b.parseLines lines
  let tag := (lines.headD ⟨0, "", "", ""⟩).tag
  if tag = "HEAD" then b.parseHeader plines
  else if tag = "SUBM" then b.parseSubmitter plines
  else if tag = "FAM" then b.parseFamily plines
  else if tag = "INDI" then b.parseIndividual plines
  else if tag = "OBJE" then b.parseObject plines
  else if tag = "NOTE" then b.parseNote plines
  else if tag = "REPO" then b.parseRepository plines
  else if tag = "SOUR" then b.parseSource plines
  else if tag = "SUBN" then b.parseSubmission plines
  else if extensionTag tag then (some (Record.plines plines), none)
  else (some (Record.plines plines), some GoError.ErrUnknownTag)

/-- The accumulation loop of `Record` (`for { ... }`), one pass per unit
of `fuel`; `none` only when the fuel runs out.  `lines` is the buffer,
`lastlevel` the level of the line appended last.  The source declares
`var lastlevel = 0` and then compares it with and assigns it from the `uint64`
level; the embedding takes it as a `uint64` like the levels, so `lastlevel+1`
wraps at `2^64`.  A pass returns the stored error if there is
one, `ErrInvalidLevel` if the current line is more than one level below the
last one, and otherwise appends the current line and reads the next; when the
reader's line then has level 0 the group is complete and is dispatched. -/
def Reader.loop (b : builders P B) :
    Nat → Reader → List gedcom.line → Nat →
      Option ((Option (Record P B) × Option GoError) × Reader)
  | 0, _, _, _ => none
  | fuel + 1, r, lines, lastlevel =>
    match r.err with
    | some e => some ((none, some e), r)
    | none =>
      if r.line.level > (lastlevel + 1) % 2 ^ 64 then
        some ((none, some GoError.ErrInvalidLevel), r)
      else
        let lastlevel := r.line.level
        let lines := lines ++ [r.line]
        let r := r.readLine
        if r.line.level = 0 then some (dispatch b lines, r)
        else Reader.loop b fuel r lines lastlevel

/-- The second half of `Record`: the buffer starts out holding the current
line, `lastlevel` starts at 0, and the loop runs.  The fuel covers every pass
the loop can make on the tokens that are left. -/
def Reader.group (b : builders P B) (r : Reader) :
    Option ((Option (Record P B) × Option GoError) × Reader) :=
  Reader.loop b (r.t.length + 2) r [r.line] 0

/-- The first statement of `Record`: unless a line is buffered, read one and
mark it as buffered. -/
def Reader.peek (r : Reader) : Reader :=
  if !r.peeked then { r.readLine with peeked := true } else r

/-- The method `Record`: the pair it returns and the reader afterwards (`none`
would mean that the loop ran out of fuel).  It peeks a line unless one is
buffered, returns a stored error (the source's `return nil, err`), runs the
phase checks on the tag of the current line and then accumulates the group. -/
def Reader.Record (b : builders P B) (r : Reader) :
    Option ((Option (Record P B) × Option GoError) × Reader) :=
  let r := r.peek
  match r.err with
  | some e => some ((none, some e), r)
  | none =>
    if !r.hadHeader then
      if r.line.tag ≠ "HEAD" then
        some ((none, some GoError.ErrNoHeader), { r with peeked := false })
      else Reader.group b { r with hadHeader := true }
    else if !r.hadRecord then
      if r.line.tag ∈ ["FAM", "INDI", "OBJE", "NOTE", "REPO", "SOUR", "SUBN"] then
        Reader.group b { r with hadRecord := true }
      else if r.line.tag = "TRLR" then
        some ((none, some GoError.ErrNoRecords), { r with peeked := false })
      else Reader.group b r
    else if r.line.tag = "TRLR" then
      some ((some Record.RecordTrailer, none), { r with peeked := false })
    else Reader.group b r

/-! ### Vocabulary for the statements about `Record` -/

/-- The reader after `i` further calls of `readLine`. -/
def Reader.readLines (r : Reader) (i : Nat) : Reader :=
  Nat.iterate Reader.readLine i r

/-- The current line and the lines of the next `n - 1` calls of `readLine`, in
the order in which they are read. -/
def Reader.linesRead : Nat → Reader → List gedcom.line
  | 0, _ => []
  | n + 1, r => r.line :: Reader.linesRead n r.readLine

/-- The phase checks of `Record` let the buffered line start a group: before
the header only `HEAD` does, afterwards every tag but `TRLR`. -/
def Reader.startsGroup (r : Reader) : Bool :=
  if !r.hadHeader then r.line.tag == "HEAD" else r.line.tag != "TRLR"

/-- The phase flags as the phase checks of `Record` leave them when the
buffered line starts a group. -/
def Reader.phase (r : Reader) : Reader :=
  if !r.hadHeader then { r with hadHeader := true }
  else if !r.hadRecord then
    if r.line.tag ∈ ["FAM", "INDI", "OBJE", "NOTE", "REPO", "SOUR", "SUBN"] then
      { r with hadRecord := true }
    else r
  else r

/-- The accumulation loop, started on the buffered line of `r`, completes a
group with `n` lines below the root: no error is stored while the root and
these `n` lines are current, the root is at most one level below 0, each of the
`n` lines has a level other than 0 that passes the level check against the line
before it, and the `readLine` call after the last of them leaves a line of
level 0 in the reader. -/
def Reader.completesGroup (r : Reader) (n : Nat) : Prop :=
  (∀ i, i ≤ n → (r.readLines i).err = none) ∧
  r.line.level ≤ 1 ∧
  (∀ i, i < n → (r.readLines (i + 1)).line.level ≠ 0 ∧
    ¬ (r.readLines (i + 1)).line.level > ((r.readLines i).line.level + 1) % 2 ^ 64) ∧
  (r.readLines (n + 1)).line.level = 0

/-- The record builder the spec assigns to a root tag. -/
def builderOf (b : builders P B) (tag : String) :
    Option (P → Option (Record P B) × Option GoError) :=
  if tag = "HEAD" then some b.parseHeader
  else if tag = "SUBM" then some b.parseSubmitter
  else if tag = "FAM" then some b.parseFamily
  else if tag = "INDI" then some b.parseIndividual
  else if tag = "OBJE" then some b.parseObject
  else if tag = "NOTE" then some b.parseNote
  else if tag = "REPO" then some b.parseRepository
  else if tag = "SOUR" then some b.parseSource
  else if tag = "SUBN" then some b.parseSubmission
  else none

/-! ## Options -/

/-- The leniency switches (`type options struct`). -/
structure options where
  allowUnknownTags : Bool
  allowWrongLength : Bool
  allowMissingRequired : Bool
  allowMoreThanAllowed : Bool
  ignoreInvalidValue : Bool
  allowUnknownCharset : Bool
  allowTerminatorsInValue : Bool
deriving DecidableEq, Repr

/-- The option function `AllowUnknownTags`. -/
def AllowUnknownTags (o : options) : options :=
  { o with allowUnknownTags := true }

/-- The pairs returned by `k` successive calls of `Record`, first call first. -/
def Reader.calls (b : builders P B) :
    Nat → Reader → List (Option (gedcom.Record P B) × Option GoError)
  | 0, _ => []
  | k + 1, r =>
    match Reader.Record b r with
    | none => []
    | some (out, r') => out :: Reader.calls b k r'

/-! ## Sample data -/

/-- A token delivered without error. -/
def tok (ty : tokenType) (s : String) : Except GoError token :=
  Except.ok ⟨ty, s⟩

/-- Builders that always succeed: `parseLines` keeps the buffer as it is and
each builder returns a record naming its kind. -/
def sampleBuilders : builders (List line) String :=
  { parseLines := id
    parseHeader := fun _ => (some (Record.built "Header"), none)
    parseSubmitter := fun _ => (some (Record.built "Submitter"), none)
    parseFamily := fun _ => (some (Record.built "Family"), none)
    parseIndividual := fun _ => (some (Record.built "Individual"), none)
    parseObject := fun _ => (some (Record.built "Object"), none)
    parseNote := fun _ => (some (Record.built "Note"), none)
    parseRepository := fun _ => (some (Record.built "Repository"), none)
    parseSource := fun _ => (some (Record.built "Source"), none)
    parseSubmission := fun _ => (some (Record.built "Submission"), none) }

/-- The tokens of `0 HEAD`, `0 SUBM`, `0 TRLR`. -/
def docSubmitterOnly : tokeniser :=
  [tok tokenType.tokenLevel "0", tok tokenType.tokenTag "HEAD", tok tokenType.tokenEndLine "",
   tok tokenType.tokenLevel "0", tok tokenType.tokenTag "SUBM", tok tokenType.tokenEndLine "",
   tok tokenType.tokenLevel "0", tok tokenType.tokenTag "TRLR", tok tokenType.tokenEndLine ""]

/-- The tokens of `0 INDI`, `0 TRLR`: a document without a header. -/
def docNoHeader : tokeniser :=
  [tok tokenType.tokenLevel "0", tok tokenType.tokenTag "INDI", tok tokenType.tokenEndLine "",
   tok tokenType.tokenLevel "0", tok tokenType.tokenTag "TRLR", tok tokenType.tokenEndLine ""]

/-- The tokens of `0 HEAD`, `1 SOUR APP`, `0 TRLR`: a header and nothing else. -/
def docHeaderOnly : tokeniser :=
  [tok tokenType.tokenLevel "0", tok tokenType.tokenTag "HEAD", tok tokenType.tokenEndLine "",
   tok tokenType.tokenLevel "1", tok tokenType.tokenTag "SOUR", tok tokenType.tokenLine "APP",
   tok tokenType.tokenLevel "0", tok tokenType.tokenTag "TRLR", tok tokenType.tokenEndLine ""]

/-- The tokens of `0 HEAD`, `0 @I1@ INDI`, `1 NAME Ann`, `0 TRLR`. -/
def docIndividual : tokeniser :=
  [tok tokenType.tokenLevel "0", tok tokenType.tokenTag "HEAD", tok tokenType.tokenEndLine "",
   tok tokenType.tokenLevel "0", tok tokenType.tokenXref "@I1@", tok tokenType.tokenTag "INDI",
   tok tokenType.tokenEndLine "",
   tok tokenType.tokenLevel "1", tok tokenType.tokenTag "NAME", tok tokenType.tokenLine "Ann",
   tok tokenType.tokenLevel "0", tok tokenType.tokenTag "TRLR", tok tokenType.tokenEndLine ""]

/-- The reader after the header of `docIndividual` has been returned. -/
def readerAtIndividual : Reader :=
  { t := docIndividual.drop 7, peeked := true, line := ⟨0, "@I1@", "INDI", ""⟩, err := none,
    hadHeader := true, hadRecord := false }

/-- The tokens of `0 HEAD`, `0 _UID`, `0 TRLR`: an extension tag at top level. -/
def docExtension : tokeniser :=
  [tok tokenType.tokenLevel "0", tok tokenType.tokenTag "HEAD", tok tokenType.tokenEndLine "",
   tok tokenType.tokenLevel "0", tok tokenType.tokenTag "_UID", tok tokenType.tokenEndLine "",
   tok tokenType.tokenLevel "0", tok tokenType.tokenTag "TRLR", tok tokenType.tokenEndLine ""]

/-- The reader after the header of `docExtension` has been returned. -/
def readerAtExtension : Reader :=
  { t := docExtension.drop 6, peeked := true, line := ⟨0, "", "_UID", ""⟩, err := none,
    hadHeader := true, hadRecord := false }

/-- The tokens of `0 HEAD`, `0 FOOX`, `0 TRLR`: an unknown tag at top level. -/
def docFOOX : tokeniser :=
  [tok tokenType.tokenLevel "0", tok tokenType.tokenTag "HEAD", tok tokenType.tokenEndLine "",
   tok tokenType.tokenLevel "0", tok tokenType.tokenTag "FOOX", tok tokenType.tokenEndLine "",
   tok tokenType.tokenLevel "0", tok tokenType.tokenTag "TRLR", tok tokenType.tokenEndLine ""]

/-- The reader after the header of `docFOOX` has been returned. -/
def readerAtFOOX : Reader :=
  { t := docFOOX.drop 6, peeked := true, line := ⟨0, "", "FOOX", ""⟩, err := none,
    hadHeader := true, hadRecord := false }

/-- The zero value of `options`: every switch off. -/
def zeroOptions : options :=
  ⟨false, false, false, false, false, false, false⟩

/-- The tokens of `0 HEAD`, `1 SOUR APP`, `3 NAME x`, `0 TRLR`: the third line
is two levels below the second. -/
def docLevelJump : tokeniser :=
  [tok tokenType.tokenLevel "0", tok tokenType.tokenTag "HEAD", tok tokenType.tokenEndLine "",
   tok tokenType.tokenLevel "1", tok tokenType.tokenTag "SOUR", tok tokenType.tokenLine "APP",
   tok tokenType.tokenLevel "3", tok tokenType.tokenTag "NAME", tok tokenType.tokenLine "x",
   tok tokenType.tokenLevel "0", tok tokenType.tokenTag "TRLR", tok tokenType.tokenEndLine ""]

/-- The tokens an optional cross-reference contributes to a line. -/
def xrefTokens : Option String → tokeniser
  | none => []
  | some x => [tok tokenType.tokenXref x]

/-- A line whose level token carries the text `x`. -/
def docBadLevel : tokeniser :=
  [tok tokenType.tokenLevel "x", tok tokenType.tokenTag "HEAD", tok tokenType.tokenEndLine ""]

/-- A line whose level token carries a decimal number that does not fit 64 bits. -/
def docHugeLevel : tokeniser :=
  [tok tokenType.tokenLevel "18446744073709551616", tok tokenType.tokenTag "HEAD",
   tok tokenType.tokenEndLine ""]

/-- The tokens of `0 @I1@ INDI`, `1 NAME Ann`, `1 SEX`: the third line has
neither a cross-reference nor a value. -/
def docStale : tokeniser :=
  [tok tokenType.tokenLevel "0", tok tokenType.tokenXref "@I1@", tok tokenType.tokenTag "INDI",
   tok tokenType.tokenEndLine "",
   tok tokenType.tokenLevel "1", tok tokenType.tokenTag "NAME", tok tokenType.tokenLine "Ann",
   tok tokenType.tokenLevel "1", tok tokenType.tokenTag "SEX", tok tokenType.tokenEndLine ""]

/-- None of the errors the tokeniser is going to report is one of the
structural errors of `Record`. -/
def tokeniser.clean (t : tokeniser) : Prop :=
  ∀ e, Except.error e ∈ t → e.structural = false

/-- The reader stores no structural error and its tokeniser will report none. -/
def Reader.clean (r : Reader) : Prop :=
  (∀ e, r.err = some e → e.structural = false) ∧ r.t.clean

/-- None of the record builders returns one of the structural errors of
`Record`. -/
def builders.clean (b : builders P B) : Prop :=
  ∀ (p : P) (e : GoError), e.structural = true →
    (b.parseHeader p).2 ≠ some e ∧ (b.parseSubmitter p).2 ≠ some e ∧
    (b.parseFamily p).2 ≠ some e ∧ (b.parseIndividual p).2 ≠ some e ∧
    (b.parseObject p).2 ≠ some e ∧ (b.parseNote p).2 ≠ some e ∧
    (b.parseRepository p).2 ≠ some e ∧ (b.parseSource p).2 ≠ some e ∧
    (b.parseSubmission p).2 ≠ some e

/-- The tokens of `0 NOTE`, `0 HEAD`, `0 INDI`, `0 TRLR`: a stray line before
the header. -/
def docLateHeader : tokeniser :=
  [tok tokenType.tokenLevel "0", tok tokenType.tokenTag "NOTE", tok tokenType.tokenEndLine "",
   tok tokenType.tokenLevel "0", tok tokenType.tokenTag "HEAD", tok tokenType.tokenEndLine "",
   tok tokenType.tokenLevel "0", tok tokenType.tokenTag "INDI", tok tokenType.tokenEndLine "",
   tok tokenType.tokenLevel "0", tok tokenType.tokenTag "TRLR", tok tokenType.tokenEndLine ""]

/-- The tokens of `0 HEAD`, `2 TRLR`, `0 INDI`, `0 TRLR`: the second line is
two levels below the header. -/
def docJumpThenRecords : tokeniser :=
  [tok tokenType.tokenLevel "0", tok tokenType.tokenTag "HEAD", tok tokenType.tokenEndLine "",
   tok tokenType.tokenLevel "2", tok tokenType.tokenTag "TRLR", tok tokenType.tokenEndLine "",
   tok tokenType.tokenLevel "0", tok tokenType.tokenTag "INDI", tok tokenType.tokenEndLine "",
   tok tokenType.tokenLevel "0", tok tokenType.tokenTag "TRLR", tok tokenType.tokenEndLine ""]

/-- The reader after `k` successive calls of `Record`. -/
def Reader.afterCalls (b : builders P B) : Nat → Reader → Option Reader
  | 0, r => some r
  | k + 1, r =>
    match Reader.Record b r with
    | none => none
    | some (_, r') => Reader.afterCalls b k r'

/-- The readers that `Record` calls can produce from a fresh reader. -/
inductive Reachable (b : builders P B) : Reader → Prop where
  | start (t : tokeniser) : Reachable b (NewReader t)
  | call (r r' : Reader) (out : Option (Record P B) × Option GoError) :
      Reachable b r → Reader.Record b r = some (out, r') → Reachable b r'

/-- Builders that always succeed and return the parsed lines they were given:
`parseLines` keeps the buffer as it is. -/
def echoBuilders : builders (List line) (List line) :=
  { parseLines := id
    parseHeader := fun p => (some (Record.built p), none)
    parseSubmitter := fun p => (some (Record.built p), none)
    parseFamily := fun p => (some (Record.built p), none)
    parseIndividual := fun p => (some (Record.built p), none)
    parseObject := fun p => (some (Record.built p), none)
    parseNote := fun p => (some (Record.built p), none)
    parseRepository := fun p => (some (Record.built p), none)
    parseSource := fun p => (some (Record.built p), none)
    parseSubmission := fun p => (some (Record.built p), none) }

/-- The tokens of `0 HEAD`, `0 INDI`, `0 TRLR`, `0 INDI`, `0 TRLR`: lines after
the trailer. -/
def docAfterTrailer : tokeniser :=
  [tok tokenType.tokenLevel "0", tok tokenType.tokenTag "HEAD", tok tokenType.tokenEndLine "",
   tok tokenType.tokenLevel "0", tok tokenType.tokenTag "INDI", tok tokenType.tokenEndLine "",
   tok tokenType.tokenLevel "0", tok tokenType.tokenTag "TRLR", tok tokenType.tokenEndLine "",
   tok tokenType.tokenLevel "0", tok tokenType.tokenTag "INDI", tok tokenType.tokenEndLine "",
   tok tokenType.tokenLevel "0", tok tokenType.tokenTag "TRLR", tok tokenType.tokenEndLine ""]

/-- The reader at the trailer of `0 HEAD`, `0 INDI`, `0 TRLR`, the input used
up. -/
def readerAtTrailer : Reader :=
  { t := [], peeked := true, line := ⟨0, "", "TRLR", ""⟩, err := none,
    hadHeader := true, hadRecord := true }

/-- The tokens of `1 HEAD`, `0 INDI`, `0 TRLR`: the first line has level 1. -/
def docLevelOneHead : tokeniser :=
  [tok tokenType.tokenLevel "1", tok tokenType.tokenTag "HEAD", tok tokenType.tokenEndLine "",
   tok tokenType.tokenLevel "0", tok tokenType.tokenTag "INDI", tok tokenType.tokenEndLine "",
   tok tokenType.tokenLevel "0", tok tokenType.tokenTag "TRLR", tok tokenType.tokenEndLine ""]

/-- The tokens of `0 HEAD`, `0 INDI`: the input ends after a one-line record. -/
def docEndsAfterRoot : tokeniser :=
  [tok tokenType.tokenLevel "0", tok tokenType.tokenTag "HEAD", tok tokenType.tokenEndLine "",
   tok tokenType.tokenLevel "0", tok tokenType.tokenTag "INDI", tok tokenType.tokenEndLine ""]

/-- The tokens of `0 HEAD`, `0 INDI`, `1 NAME Ann`: the input ends after a
nested line. -/
def docEndsAfterNested : tokeniser :=
  [tok tokenType.tokenLevel "0", tok tokenType.tokenTag "HEAD", tok tokenType.tokenEndLine "",
   tok tokenType.tokenLevel "0", tok tokenType.tokenTag "INDI", tok tokenType.tokenEndLine "",
   tok tokenType.tokenLevel "1", tok tokenType.tokenTag "NAME", tok tokenType.tokenLine "Ann"]

/-- The option function `AllowWrongLength`. -/
def AllowWrongLength (o : options) : options :=
  { o with allowWrongLength := true }

/-- The option function `AllowMissingRequired`. -/
def AllowMissingRequired (o : options) : options :=
  { o with allowMissingRequired := true }

/-- The option function `AllowMoreThanAllowed`. -/
def AllowMoreThanAllowed (o : options) : options :=
  { o with allowMoreThanAllowed := true }

/-- The option function `IgnoreInvalidValue`. -/
def IgnoreInvalidValue (o : options) : options :=
  { o with ignoreInvalidValue := true }

/-- The option function `AllowUnknownCharset`. -/
def AllowUnknownCharset (o : options) : options :=
  { o with allowUnknownCharset := true }

/-- The option function `AllowTerminatorsInValue`. -/
def AllowTerminatorsInValue (o : options) : options :=
  { o with allowTerminatorsInValue := true }

/-- The seven option functions (values of the Go type `Option`, a function on
the options). -/
def optionFuncs : List (options → options) :=
  [AllowUnknownTags, AllowWrongLength, AllowMissingRequired, AllowMoreThanAllowed,
   IgnoreInvalidValue, AllowUnknownCharset, AllowTerminatorsInValue]

/-- The tokens of `0 HEAD`, `0 TRLR`, `0 INDI`, `0 TRLR`: a trailer right after
the header, and records after it. -/
def docEmptyThenRecords : tokeniser :=
  [tok tokenType.tokenLevel "0", tok tokenType.tokenTag "HEAD", tok tokenType.tokenEndLine "",
   tok tokenType.tokenLevel "0", tok tokenType.tokenTag "TRLR", tok tokenType.tokenEndLine "",
   tok tokenType.tokenLevel "0", tok tokenType.tokenTag "INDI", tok tokenType.tokenEndLine "",
   tok tokenType.tokenLevel "0", tok tokenType.tokenTag "TRLR", tok tokenType.tokenEndLine ""]

/-- The reader after the first call of `Record` on `docLevelJump`: the line
`3 NAME x` is buffered. -/
def readerAfterJump : Reader :=
  { t := docLevelJump.drop 9, peeked := true, line := ⟨3, "", "NAME", "x"⟩, err := none,
    hadHeader := true, hadRecord := false }

/-! # Theorems -/

open tokenType

/-! ## `readLine` -/

theorem readLine_eq_cases (r : Reader) : r.readLine = r.readLineCases := by
  obtain ⟨t, pk, l, e, hh, hr⟩ := r
  cases e with
  | some e => simp [Reader.readLine, Reader.readLineCases]
  | none =>
    rcases t with _ | ⟨(e1 | t1), rest1⟩
    · simp [Reader.readLine, Reader.readLineCases, tokeniser.GetToken]
    · simp [Reader.readLine, Reader.readLineCases, tokeniser.GetToken]
    · by_cases h1 : t1.typ = tokenLevel
      swap
      · simp [Reader.readLine, Reader.readLineCases, tokeniser.GetToken, h1]
      cases hp : (ParseUint t1.data).2 with
      | some pe => simp [Reader.readLine, Reader.readLineCases, tokeniser.GetToken, h1, hp]
      | none =>
        rcases rest1 with _ | ⟨(e2 | t2), rest2⟩
        · simp [Reader.readLine, Reader.readLineCases, Reader.xrefCases, Reader.tagCases,
            tokeniser.GetToken, h1, hp]
        · simp [Reader.readLine, Reader.readLineCases, Reader.xrefCases, Reader.tagCases,
            tokeniser.GetToken, h1, hp]
        · by_cases h2 : t2.typ = tokenXref
          · have h2t : t2.typ ≠ tokenTag := by rw [h2]; decide
            rcases rest2 with _ | ⟨(e3 | t3), rest3⟩
            · simp [Reader.readLine, Reader.readLineCases, Reader.xrefCases, Reader.tagCases,
                tokeniser.GetToken, h1, hp, h2]
            · simp [Reader.readLine, Reader.readLineCases, Reader.xrefCases, Reader.tagCases,
                tokeniser.GetToken, h1, hp, h2]
            · by_cases h3 : t3.typ = tokenTag
              swap
              · simp [Reader.readLine, Reader.readLineCases, Reader.xrefCases, Reader.tagCases,
                  tokeniser.GetToken, h1, hp, h2, h3]
              rcases rest3 with _ | ⟨(e4 | t4), rest4⟩
              · simp [Reader.readLine, Reader.readLineCases, Reader.xrefCases, Reader.tagCases,
                  tokeniser.GetToken, h1, hp, h2, h3]
              · simp [Reader.readLine, Reader.readLineCases, Reader.xrefCases, Reader.tagCases,
                  tokeniser.GetToken, h1, hp, h2, h3]
              · by_cases h4 : t4.typ = tokenEndLine
                · simp [Reader.readLine, Reader.readLineCases, Reader.xrefCases,
                    Reader.tagCases, tokeniser.GetToken, h1, hp, h2, h3, h4]
                · by_cases h5 : t4.typ = tokenLine <;>
                    simp [Reader.readLine, Reader.readLineCases, Reader.xrefCases,
                      Reader.tagCases, tokeniser.GetToken, h1, hp, h2, h3, h4, h5]
          · by_cases h3 : t2.typ = tokenTag
            swap
            · simp [Reader.readLine, Reader.readLineCases, Reader.xrefCases, Reader.tagCases,
                tokeniser.GetToken, h1, hp, h2, h3]
            rcases rest2 with _ | ⟨(e4 | t4), rest4⟩
            · simp [Reader.readLine, Reader.readLineCases, Reader.xrefCases, Reader.tagCases,
                tokeniser.GetToken, h1, hp, h2, h3]
            · simp [Reader.readLine, Reader.readLineCases, Reader.xrefCases, Reader.tagCases,
                tokeniser.GetToken, h1, hp, h2, h3]
            · by_cases h4 : t4.typ = tokenEndLine
              · simp [Reader.readLine, Reader.readLineCases, Reader.xrefCases,
                  Reader.tagCases, tokeniser.GetToken, h1, hp, h2, h3, h4]
              · by_cases h5 : t4.typ = tokenLine <;>
                  simp [Reader.readLine, Reader.readLineCases, Reader.xrefCases,
                    Reader.tagCases, tokeniser.GetToken, h1, hp, h2, h3, h4, h5]

theorem tagCases_frame (r : Reader) :
    r.tagCases.peeked = r.peeked ∧ r.tagCases.hadHeader = r.hadHeader ∧
      r.tagCases.hadRecord = r.hadRecord := by
  unfold Reader.tagCases
  split
  · simp
  · simp
  · split_ifs
    · simp
    · split
      · simp
      · simp
      · split_ifs <;> simp

theorem readLine_frame (r : Reader) :
    r.readLine.peeked = r.peeked ∧ r.readLine.hadHeader = r.hadHeader ∧
      r.readLine.hadRecord = r.hadRecord := by
  rw [readLine_eq_cases]
  unfold Reader.readLineCases
  split
  · simp
  · split
    · simp
    · simp
    · split_ifs
      · simp
      · split
        · simp
        · unfold Reader.xrefCases
          split
          · split_ifs
            · exact tagCases_frame _
            · exact tagCases_frame _
          · exact tagCases_frame _

theorem tagCases_length (r : Reader) :
    r.tagCases.t.length ≤ r.t.length ∧
      (r.tagCases.err = none → r.tagCases.t.length + 2 ≤ r.t.length) := by
  unfold Reader.tagCases
  split
  · simp
  · rename_i e rest h; simp [h]
  · rename_i t rest h
    split_ifs
    · simp [h]
    · split
      · simp [h]
      · simp [h]; omega
      · split_ifs <;> simp [h] <;> omega

theorem xrefCases_length (r : Reader) :
    r.xrefCases.t.length ≤ r.t.length ∧
      (r.xrefCases.err = none → r.xrefCases.t.length + 2 ≤ r.t.length) := by
  unfold Reader.xrefCases
  split
  · rename_i t rest h
    split_ifs
    · have := tagCases_length { r with t := rest, line := { r.line with xrefID := t.data } }
      simp only [h, List.length_cons] at *
      constructor
      · omega
      · intro h'; have := this.2 h'; omega
    · exact tagCases_length r
  · exact tagCases_length r

theorem readLine_length (r : Reader) :
    r.readLine.t.length ≤ r.t.length ∧
      (r.err = none → r.readLine.err = none → r.readLine.t.length + 3 ≤ r.t.length) := by
  rw [readLine_eq_cases]
  unfold Reader.readLineCases
  split
  · rename_i e h; simp [h]
  · split
    · simp
    · rename_i e rest h; simp [h]
    · rename_i e t rest h
      split_ifs
      · simp [h]
      · split
        · simp [h]
        · have := xrefCases_length
            { r with t := rest, line := { r.line with level := (ParseUint t.data).1 } }
          simp only [h, List.length_cons] at *
          constructor
          · omega
          · intro _ h'; have := this.2 h'; omega

theorem tagCases_setFlags (r : Reader) (p h k : Bool) :
    Reader.tagCases { r with peeked := p, hadHeader := h, hadRecord := k } =
      { r.tagCases with peeked := p, hadHeader := h, hadRecord := k } := by
  obtain ⟨t, pk, l, e, hh, hr⟩ := r
  unfold Reader.tagCases
  rcases t with _ | ⟨(e1 | t1), rest1⟩
  · simp
  · simp
  · simp only []
    split_ifs
    · simp
    · rcases rest1 with _ | ⟨(e2 | t2), rest2⟩
      · simp
      · simp
      · simp only []
        split_ifs <;> simp

theorem xrefCases_setFlags (r : Reader) (p h k : Bool) :
    Reader.xrefCases { r with peeked := p, hadHeader := h, hadRecord := k } =
      { r.xrefCases with peeked := p, hadHeader := h, hadRecord := k } := by
  obtain ⟨t, pk, l, e, hh, hr⟩ := r
  unfold Reader.xrefCases
  rcases t with _ | ⟨(e1 | t1), rest1⟩
  · exact tagCases_setFlags ⟨[], pk, l, e, hh, hr⟩ p h k
  · exact tagCases_setFlags ⟨Except.error e1 :: rest1, pk, l, e, hh, hr⟩ p h k
  · dsimp only
    split_ifs
    · exact tagCases_setFlags ⟨rest1, pk, _, e, hh, hr⟩ p h k
    · exact tagCases_setFlags ⟨Except.ok t1 :: rest1, pk, l, e, hh, hr⟩ p h k

theorem readLine_setFlags (r : Reader) (p h k : Bool) :
    Reader.readLine { r with peeked := p, hadHeader := h, hadRecord := k } =
      { r.readLine with peeked := p, hadHeader := h, hadRecord := k } := by
  obtain ⟨t, pk, l, e, hh, hr⟩ := r
  rw [readLine_eq_cases, readLine_eq_cases]
  unfold Reader.readLineCases
  cases e with
  | some e => simp
  | none =>
    rcases t with _ | ⟨(e1 | t1), rest1⟩
    · simp
    · simp
    · dsimp only
      split_ifs
      · simp
      · split
        · simp
        · exact xrefCases_setFlags ⟨rest1, pk, _, none, hh, hr⟩ p h k

/-! ## Successive lines -/

theorem readLines_zero (r : Reader) : r.readLines 0 = r := rfl

theorem readLines_succ (r : Reader) (i : Nat) :
    r.readLines (i + 1) = r.readLine.readLines i := rfl

theorem readLines_succ_last (r : Reader) (i : Nat) :
    r.readLines (i + 1) = (r.readLines i).readLine := by
  unfold Reader.readLines
  exact Function.iterate_succ_apply' _ _ _

theorem readLines_setFlags (r : Reader) (p h k : Bool) (i : Nat) :
    Reader.readLines { r with peeked := p, hadHeader := h, hadRecord := k } i =
      { r.readLines i with peeked := p, hadHeader := h, hadRecord := k } := by
  induction i generalizing r with
  | zero => rfl
  | succ i ih =>
    rw [readLines_succ, readLine_setFlags, ih, readLines_succ]

theorem linesRead_setFlags (r : Reader) (p h k : Bool) (n : Nat) :
    Reader.linesRead n { r with peeked := p, hadHeader := h, hadRecord := k } =
      Reader.linesRead n r := by
  induction n generalizing r with
  | zero => rfl
  | succ n ih =>
    simp only [Reader.linesRead]
    rw [readLine_setFlags, ih]

theorem linesRead_length (r : Reader) (n : Nat) : (Reader.linesRead n r).length = n := by
  induction n generalizing r with
  | zero => rfl
  | succ n ih => simp [Reader.linesRead, ih]

theorem readLines_length (r : Reader) (n : Nat)
    (h : ∀ i, i ≤ n → (r.readLines i).err = none) :
    (r.readLines n).t.length + 3 * n ≤ r.t.length := by
  induction n generalizing r with
  | zero => simp [readLines_zero]
  | succ n ih =>
    have h0 : r.err = none := h 0 (Nat.zero_le _)
    have h1 : r.readLine.err = none := h 1 (by omega)
    have hl := (readLine_length r).2 h0 h1
    have := ih r.readLine (fun i hi => by
      have := h (i + 1) (by omega)
      rwa [readLines_succ] at this)
    rw [readLines_succ]
    omega

/-! ## The accumulation loop -/

theorem loop_complete (b : builders P B) (n : Nat) :
    ∀ (fuel : Nat) (r : Reader) (lines : List line) (last : Nat),
      n + 1 ≤ fuel →
      (∀ i, i ≤ n → (r.readLines i).err = none) →
      ¬ r.line.level > (last + 1) % 2 ^ 64 →
      (∀ i, i < n → (r.readLines (i + 1)).line.level ≠ 0 ∧
        ¬ (r.readLines (i + 1)).line.level > ((r.readLines i).line.level + 1) % 2 ^ 64) →
      (r.readLines (n + 1)).line.level = 0 →
      Reader.loop b fuel r lines last =
        some (dispatch b (lines ++ Reader.linesRead (n + 1) r), r.readLines (n + 1)) := by
  induction n with
  | zero =>
    intro fuel r lines last hf herr hroot _ hend
    obtain ⟨f, rfl⟩ : ∃ f, fuel = f + 1 := ⟨fuel - 1, by omega⟩
    have h0 : r.err = none := herr 0 (Nat.le_refl _)
    have hend' : r.readLine.line.level = 0 := hend
    rw [Reader.loop]
    simp only [h0, hroot, if_false, hend', if_true]
    rfl
  | succ n ih =>
    intro fuel r lines last hf herr hroot hbody hend
    obtain ⟨f, rfl⟩ : ∃ f, fuel = f + 1 := ⟨fuel - 1, by omega⟩
    have h0 : r.err = none := herr 0 (Nat.zero_le _)
    have h1 := hbody 0 (Nat.succ_pos _)
    rw [readLines_succ, readLines_zero, readLines_zero] at h1
    have hrec := ih f r.readLine (lines ++ [r.line]) r.line.level (by omega)
      (fun i hi => by
        have := herr (i + 1) (by omega)
        rwa [readLines_succ] at this)
      h1.2
      (fun i hi => by
        have := hbody (i + 1) (by omega)
        rwa [readLines_succ, readLines_succ] at this)
      (by rwa [readLines_succ] at hend)
    rw [Reader.loop]
    simp only [h0, hroot, if_false, h1.1]
    rw [hrec, readLines_succ r (n + 1)]
    simp [Reader.linesRead]

theorem group_complete (b : builders P B) (r : Reader) (n : Nat)
    (h : r.completesGroup n) :
    Reader.group b r =
      some (dispatch b (r.line :: Reader.linesRead (n + 1) r), r.readLines (n + 1)) := by
  obtain ⟨herr, hroot, hbody, hend⟩ := h
  have hlen := readLines_length r n herr
  have := loop_complete b n (r.t.length + 2) r [r.line] 0 (by omega) herr
    (by simp; omega) hbody hend
  simpa [Reader.group] using this

/-! ## `Record`: the phase checks -/

theorem phase_eq (r : Reader) :
    r.phase =
      { r with
        peeked := r.peeked
        hadHeader := true
        hadRecord := r.hadRecord || (r.hadHeader &&
          decide (r.line.tag ∈ ["FAM", "INDI", "OBJE", "NOTE", "REPO", "SOUR", "SUBN"])) } := by
  obtain ⟨t, pk, l, e, hh, hr⟩ := r
  unfold Reader.phase
  cases hh <;> cases hr <;> simp
  split_ifs <;> simp_all

theorem phase_line (r : Reader) : r.phase.line = r.line := by
  rw [phase_eq]

theorem readLines_phase (r : Reader) (i : Nat) :
    (r.phase.readLines i).line = (r.readLines i).line ∧
      (r.phase.readLines i).err = (r.readLines i).err ∧
      (r.phase.readLines i).t = (r.readLines i).t := by
  rw [phase_eq, readLines_setFlags]
  simp

theorem linesRead_phase (r : Reader) (n : Nat) :
    Reader.linesRead n r.phase = Reader.linesRead n r := by
  rw [phase_eq, linesRead_setFlags]

theorem completesGroup_phase (r : Reader) (n : Nat) (h : r.completesGroup n) :
    r.phase.completesGroup n := by
  obtain ⟨herr, hroot, hbody, hend⟩ := h
  refine ⟨?_, ?_, ?_, ?_⟩
  · intro i hi
    rw [(readLines_phase r i).2.1]
    exact herr i hi
  · rw [phase_line]
    exact hroot
  · intro i hi
    rw [(readLines_phase r (i + 1)).1, (readLines_phase r i).1]
    exact hbody i hi
  · rw [(readLines_phase r (n + 1)).1]
    exact hend

theorem Record_of_err (b : builders P B) (r : Reader) (e : GoError)
    (h : r.peek.err = some e) :
    Reader.Record b r = some ((none, some e), r.peek) := by
  unfold Reader.Record
  simp [h]

theorem Record_starts (b : builders P B) (r : Reader) (herr : r.peek.err = none)
    (hstart : r.peek.startsGroup = true) :
    Reader.Record b r = Reader.group b r.peek.phase := by
  unfold Reader.Record
  generalize r.peek = q at *
  obtain ⟨t, pk, l, e, hh, hr⟩ := q
  simp only at herr
  subst herr
  unfold Reader.startsGroup at hstart
  unfold Reader.phase
  cases hh <;> cases hr <;> simp at hstart ⊢ <;> simp [hstart]
  split_ifs <;> rfl

theorem Record_complete (b : builders P B) (r : Reader) (n : Nat)
    (hstart : r.peek.startsGroup = true) (hgroup : r.peek.completesGroup n) :
    Reader.Record b r =
      some (dispatch b (r.peek.line :: Reader.linesRead (n + 1) r.peek),
        r.peek.phase.readLines (n + 1)) := by
  have herr : r.peek.err = none := hgroup.1 0 (Nat.zero_le _)
  rw [Record_starts b r herr hstart, group_complete b _ n (completesGroup_phase _ n hgroup),
    linesRead_phase, phase_line]

/-! ## The claims about `Record` -/

/-- C1 (evaluation at the failing input).  On the document `0 HEAD`, `0 SUBM`,
`0 TRLR`, with builders that succeed, the first two calls of `Record` return
the header and the submitter record, and the third call returns no record and
`ErrNoRecords` where the trailer record is due: the `SUBM` group does not set
`hadRecord`. -/
theorem Record_submitter_only_no_records :
    Reader.calls sampleBuilders 3 (NewReader docSubmitterOnly) =
      [(some (Record.built "Header"), none),
       (some (Record.built "Submitter"), none),
       (none, some GoError.ErrNoRecords)] := by
  decide

theorem Record_no_header (b : builders P B) (r : Reader) (herr : r.peek.err = none)
    (hh : r.peek.hadHeader = false) (htag : r.peek.line.tag ≠ "HEAD") :
    Reader.Record b r =
      some ((none, some GoError.ErrNoHeader), { r.peek with peeked := false }) := by
  unfold Reader.Record
  generalize r.peek = q at *
  obtain ⟨t, pk, l, e, h1, h2⟩ := q
  simp only at herr hh htag
  subst herr hh
  simp [htag]

theorem peek_NewReader (t : tokeniser) :
    (NewReader t).peek = { (NewReader t).readLine with peeked := true } := rfl

/-- C3.  On a fresh reader, when the first line is assembled without error and
its tag is not `HEAD`, the first call of `Record` returns no record and
`ErrNoHeader`, and `hadHeader` and `hadRecord` are still false afterwards. -/
theorem Record_first_line_not_header (b : builders P B) (t : tokeniser)
    (hline : (NewReader t).readLine.err = none)
    (htag : (NewReader t).readLine.line.tag ≠ "HEAD") :
    ∃ r', Reader.Record b (NewReader t) = some ((none, some GoError.ErrNoHeader), r') ∧
      r'.hadHeader = false ∧ r'.hadRecord = false := by
  have hf := readLine_frame (NewReader t)
  refine ⟨_, Record_no_header b (NewReader t) ?_ ?_ ?_, ?_, ?_⟩
  · rw [peek_NewReader]; exact hline
  · rw [peek_NewReader]; exact hf.2.1
  · rw [peek_NewReader]; exact htag
  · rw [peek_NewReader]; exact hf.2.1
  · rw [peek_NewReader]; exact hf.2.2

theorem Record_first_line_not_header_witness :
    (NewReader docNoHeader).readLine.err = none ∧
    (NewReader docNoHeader).readLine.line.tag ≠ "HEAD" ∧
    ∃ r', Reader.Record sampleBuilders (NewReader docNoHeader) =
        some ((none, some GoError.ErrNoHeader), r') ∧
      r'.hadHeader = false ∧ r'.hadRecord = false :=
  ⟨by decide, by decide,
    Record_first_line_not_header sampleBuilders docNoHeader (by decide) (by decide)⟩

theorem Record_no_records_state (b : builders P B) (r : Reader) (herr : r.peek.err = none)
    (hh : r.peek.hadHeader = true) (hr : r.peek.hadRecord = false)
    (htag : r.peek.line.tag = "TRLR") :
    Reader.Record b r =
      some ((none, some GoError.ErrNoRecords), { r.peek with peeked := false }) := by
  unfold Reader.Record
  generalize r.peek = q at *
  obtain ⟨t, pk, l, e, h1, h2⟩ := q
  simp only at herr hh hr htag
  subst herr hh hr
  simp [htag]

theorem dispatch_head (b : builders P B) (l : line) (ls : List line) (h : l.tag = "HEAD") :
    dispatch b (l :: ls) = b.parseHeader (b.parseLines (l :: ls)) := by
  simp [dispatch, h]

theorem dispatch_builderOf (b : builders P B) (l : line) (ls : List line)
    (f : P → Option (Record P B) × Option GoError) (h : builderOf b l.tag = some f) :
    dispatch b (l :: ls) = f (b.parseLines (l :: ls)) := by
  unfold builderOf at h
  unfold dispatch
  simp only [List.headD_cons]
  by_cases h0 : l.tag = "HEAD"
  · rw [if_pos h0] at h ⊢
    rw [← Option.some.inj h]
  rw [if_neg h0] at h ⊢
  by_cases h1 : l.tag = "SUBM"
  · rw [if_pos h1] at h ⊢
    rw [← Option.some.inj h]
  rw [if_neg h1] at h ⊢
  by_cases h2 : l.tag = "FAM"
  · rw [if_pos h2] at h ⊢
    rw [← Option.some.inj h]
  rw [if_neg h2] at h ⊢
  by_cases h3 : l.tag = "INDI"
  · rw [if_pos h3] at h ⊢
    rw [← Option.some.inj h]
  rw [if_neg h3] at h ⊢
  by_cases h4 : l.tag = "OBJE"
  · rw [if_pos h4] at h ⊢
    rw [← Option.some.inj h]
  rw [if_neg h4] at h ⊢
  by_cases h5 : l.tag = "NOTE"
  · rw [if_pos h5] at h ⊢
    rw [← Option.some.inj h]
  rw [if_neg h5] at h ⊢
  by_cases h6 : l.tag = "REPO"
  · rw [if_pos h6] at h ⊢
    rw [← Option.some.inj h]
  rw [if_neg h6] at h ⊢
  by_cases h7 : l.tag = "SOUR"
  · rw [if_pos h7] at h ⊢
    rw [← Option.some.inj h]
  rw [if_neg h7] at h ⊢
  by_cases h8 : l.tag = "SUBN"
  · rw [if_pos h8] at h ⊢
    rw [← Option.some.inj h]
  rw [if_neg h8] at h ⊢
  exact absurd h (by simp)

theorem readLines_frame (r : Reader) (i : Nat) :
    (r.readLines i).peeked = r.peeked ∧ (r.readLines i).hadHeader = r.hadHeader ∧
      (r.readLines i).hadRecord = r.hadRecord := by
  induction i generalizing r with
  | zero => exact ⟨rfl, rfl, rfl⟩
  | succ i ih =>
    rw [readLines_succ]
    have h1 := ih r.readLine
    have h2 := readLine_frame r
    exact ⟨h1.1.trans h2.1, h1.2.1.trans h2.2.1, h1.2.2.trans h2.2.2⟩

theorem phase_flags (r : Reader) :
    r.phase.peeked = r.peeked ∧ r.phase.hadHeader = true ∧
      (r.hadHeader = false → r.phase.hadRecord = r.hadRecord) := by
  rw [phase_eq]
  refine ⟨rfl, rfl, ?_⟩
  intro h
  simp [h]

theorem peek_of_peeked (r : Reader) (h : r.peeked = true) : r.peek = r := by
  unfold Reader.peek
  simp [h]

theorem peek_peeked (r : Reader) : r.peek.peeked = true := by
  unfold Reader.peek
  cases h : r.peeked <;> simp [h]

theorem peek_flags (r : Reader) :
    r.peek.hadHeader = r.hadHeader ∧ r.peek.hadRecord = r.hadRecord := by
  unfold Reader.peek
  have := readLine_frame r
  cases h : r.peeked <;> simp [this.2.1, this.2.2]

/-- C4.  When the first line of the input is `HEAD`, its group is complete and
the line that ends the group was read without error and carries the tag `TRLR`
(level 0, no content record in between), the first call of `Record` returns
what `parseHeader` makes of the header lines, and the call after it returns no
record and `ErrNoRecords`, not the trailer record. -/
theorem Record_trailer_after_header (b : builders P B) (t : tokeniser) (n : Nat)
    (hhead : (NewReader t).peek.line.tag = "HEAD")
    (hgroup : (NewReader t).peek.completesGroup n)
    (hnext : ((NewReader t).peek.readLines (n + 1)).err = none)
    (htrlr : ((NewReader t).peek.readLines (n + 1)).line.tag = "TRLR") :
    ∃ r1 r2,
      Reader.Record b (NewReader t) =
        some (b.parseHeader (b.parseLines
          ((NewReader t).peek.line :: Reader.linesRead (n + 1) (NewReader t).peek)), r1) ∧
      Reader.Record b r1 = some ((none, some GoError.ErrNoRecords), r2) ∧
      Reader.Record b r1 ≠ some ((some Record.RecordTrailer, none), r2) := by
  have hfl := peek_flags (NewReader t)
  have hh : (NewReader t).peek.hadHeader = false := hfl.1
  have hr : (NewReader t).peek.hadRecord = false := hfl.2
  have hstart : (NewReader t).peek.startsGroup = true := by
    unfold Reader.startsGroup
    simp [hh, hhead]
  have hrec := Record_complete b (NewReader t) n hstart hgroup
  rw [dispatch_head b _ _ hhead] at hrec
  have hph := readLines_phase (NewReader t).peek (n + 1)
  have hfr := readLines_frame (NewReader t).peek.phase (n + 1)
  have hpf := phase_flags (NewReader t).peek
  have hpk : ((NewReader t).peek.phase.readLines (n + 1)).peeked = true := by
    rw [hfr.1, hpf.1]; exact peek_peeked _
  have hpeek := peek_of_peeked _ hpk
  have h2 := Record_no_records_state b ((NewReader t).peek.phase.readLines (n + 1))
    (by rw [hpeek, hph.2.1]; exact hnext) (by rw [hpeek, hfr.2.1]; exact hpf.2.1)
    (by rw [hpeek, hfr.2.2, hpf.2.2 hh]; exact hr) (by rw [hpeek, hph.1]; exact htrlr)
  refine ⟨_, _, hrec, h2, ?_⟩
  rw [h2]
  simp

theorem Record_trailer_after_header_witness :
    (NewReader docHeaderOnly).peek.line.tag = "HEAD" ∧
    (NewReader docHeaderOnly).peek.completesGroup 1 ∧
    ((NewReader docHeaderOnly).peek.readLines 2).err = none ∧
    ((NewReader docHeaderOnly).peek.readLines 2).line.tag = "TRLR" ∧
    ∃ r1 r2,
      Reader.Record sampleBuilders (NewReader docHeaderOnly) =
        some (sampleBuilders.parseHeader (sampleBuilders.parseLines
          ((NewReader docHeaderOnly).peek.line ::
            Reader.linesRead 2 (NewReader docHeaderOnly).peek)), r1) ∧
      Reader.Record sampleBuilders r1 = some ((none, some GoError.ErrNoRecords), r2) ∧
      Reader.Record sampleBuilders r1 ≠ some ((some Record.RecordTrailer, none), r2) :=
  have hg : (NewReader docHeaderOnly).peek.completesGroup 1 :=
    ⟨by decide, by decide, by decide, by decide⟩
  ⟨by decide, hg, by decide, by decide,
    Record_trailer_after_header sampleBuilders docHeaderOnly 1 (by decide) hg (by decide)
      (by decide)⟩

theorem dispatch_unknown (b : builders P B) (l : line) (ls : List line)
    (h : l.tag ∉ ["HEAD", "SUBM", "FAM", "INDI", "OBJE", "NOTE", "REPO", "SOUR", "SUBN"]) :
    dispatch b (l :: ls) =
      (some (Record.plines (b.parseLines (l :: ls))),
        if extensionTag l.tag then none else some GoError.ErrUnknownTag) := by
  simp only [List.mem_cons, List.mem_singleton, List.not_mem_nil, or_false, not_or] at h
  obtain ⟨h0, h1, h2, h3, h4, h5, h6, h7, h8⟩ := h
  unfold dispatch
  simp only [List.headD_cons]
  rw [if_neg h0, if_neg h1, if_neg h2, if_neg h3, if_neg h4, if_neg h5, if_neg h6, if_neg h7,
    if_neg h8]
  by_cases hx : extensionTag l.tag = true <;> simp [hx]

theorem extensionTag_iff (tag : String) :
    extensionTag tag = true ↔ ∃ rest, tag.data = '_' :: rest := by
  unfold extensionTag
  split
  · rename_i h; simp [h]
  · rename_i c cs h; simp [h]

/-- Propagation of the builder's result.  When the phase checks let the
buffered line start a group, the group is completed, and the root tag is one of
`HEAD`, `SUBM`, `FAM`, `INDI`, `OBJE`, `NOTE`, `REPO`, `SOUR`, `SUBN`, then
`Record` returns the pair (record, error) of that tag's builder unchanged; the
builder is applied to `parseLines` of the accumulated buffer, which holds the
root line twice. -/
theorem Record_returns_builder_pair (b : builders P B) (r : Reader) (n : Nat)
    (f : P → Option (Record P B) × Option GoError)
    (hstart : r.peek.startsGroup = true) (hgroup : r.peek.completesGroup n)
    (hb : builderOf b r.peek.line.tag = some f) :
    Reader.Record b r =
      some (f (b.parseLines (r.peek.line :: Reader.linesRead (n + 1) r.peek)),
        r.peek.phase.readLines (n + 1)) := by
  rw [Record_complete b r n hstart hgroup, dispatch_builderOf b _ _ f hb]

/-- C6.  When the phase checks let the buffered line start a group, the group
is completed, and the root tag is none of `HEAD`, `SUBM`, `FAM`, `INDI`, `OBJE`,
`NOTE`, `REPO`, `SOUR`, `SUBN`, then `Record` returns the parsed lines as the
record, with a nil error exactly when the root tag begins with `_` and with
`ErrUnknownTag` otherwise; no record builder takes part: any builders with the
same `parseLines` give the same result. -/
theorem Record_unknown_root_tag (b : builders P B) (r : Reader) (n : Nat)
    (hstart : r.peek.startsGroup = true) (hgroup : r.peek.completesGroup n)
    (htag : r.peek.line.tag ∉
      ["HEAD", "SUBM", "FAM", "INDI", "OBJE", "NOTE", "REPO", "SOUR", "SUBN"]) :
    ∃ e, Reader.Record b r =
        some ((some (Record.plines
            (b.parseLines (r.peek.line :: Reader.linesRead (n + 1) r.peek))), e),
          r.peek.phase.readLines (n + 1)) ∧
      (e = none ↔ ∃ rest, r.peek.line.tag.data = '_' :: rest) ∧
      (e ≠ none → e = some GoError.ErrUnknownTag) ∧
      ∀ b' : builders P B, b'.parseLines = b.parseLines →
        Reader.Record b' r = Reader.Record b r := by
  refine ⟨if extensionTag r.peek.line.tag then none else some GoError.ErrUnknownTag, ?_, ?_, ?_, ?_⟩
  · rw [Record_complete b r n hstart hgroup, dispatch_unknown b _ _ htag]
  · rw [← extensionTag_iff]
    cases extensionTag r.peek.line.tag <;> simp
  · cases extensionTag r.peek.line.tag <;> simp
  · intro b' hb'
    rw [Record_complete b r n hstart hgroup, Record_complete b' r n hstart hgroup,
      dispatch_unknown b _ _ htag, dispatch_unknown b' _ _ htag, hb']

theorem Record_unknown_root_tag_witness :
    readerAtExtension.peek.startsGroup = true ∧
    readerAtExtension.peek.completesGroup 0 ∧
    readerAtExtension.peek.line.tag ∉
      ["HEAD", "SUBM", "FAM", "INDI", "OBJE", "NOTE", "REPO", "SOUR", "SUBN"] ∧
    ∃ e, Reader.Record sampleBuilders readerAtExtension =
        some ((some (Record.plines (sampleBuilders.parseLines
            (readerAtExtension.peek.line :: Reader.linesRead 1 readerAtExtension.peek))), e),
          readerAtExtension.peek.phase.readLines 1) ∧
      (e = none ↔ ∃ rest, readerAtExtension.peek.line.tag.data = '_' :: rest) ∧
      (e ≠ none → e = some GoError.ErrUnknownTag) ∧
      ∀ b' : builders (List line) String, b'.parseLines = sampleBuilders.parseLines →
        Reader.Record b' readerAtExtension = Reader.Record sampleBuilders readerAtExtension :=
  have hg : readerAtExtension.peek.completesGroup 0 :=
    ⟨by decide, by decide, by decide, by decide⟩
  ⟨by decide, hg, by decide,
    Record_unknown_root_tag sampleBuilders readerAtExtension 0 (by decide) hg (by decide)⟩

theorem loop_invalid (n : Nat) :
    ∀ (fuel : Nat) (r : Reader) (last : Nat),
      n + 2 ≤ fuel →
      (∀ i, i ≤ n + 1 → (r.readLines i).err = none) →
      (∀ i, 1 ≤ i → i ≤ n → (r.readLines i).line.level ≠ 0) →
      (r.readLines (n + 1)).line.level > (r.readLines n).line.level + 1 →
      ∃ k, k ≤ n + 1 ∧ ∀ (b : builders P B) (lines : List line),
        Reader.loop b fuel r lines last =
          some ((none, some GoError.ErrInvalidLevel), r.readLines k) := by
  induction n with
  | zero =>
    intro fuel r last hf herr _ hjump
    obtain ⟨f, rfl⟩ : ∃ f, fuel = f + 2 := ⟨fuel - 2, by omega⟩
    have h0 : r.err = none := herr 0 (Nat.zero_le _)
    have h1 : r.readLine.err = none := herr 1 (Nat.le_refl _)
    have hj : r.readLine.line.level > r.line.level + 1 := hjump
    by_cases hroot : r.line.level > (last + 1) % 2 ^ 64
    · refine ⟨0, Nat.zero_le _, fun b lines => ?_⟩
      rw [Reader.loop]
      simp only [h0, hroot, if_true]
      rfl
    · refine ⟨1, Nat.le_refl _, fun b lines => ?_⟩
      have hne : r.readLine.line.level ≠ 0 := by omega
      have hmod : r.readLine.line.level > (r.line.level + 1) % 2 ^ 64 :=
        lt_of_le_of_lt (Nat.mod_le _ _) hj
      rw [Reader.loop]
      simp only [h0, hroot, if_false, hne]
      rw [Reader.loop]
      simp only [h1, hmod, if_true]
      rfl
  | succ n ih =>
    intro fuel r last hf herr hin hjump
    obtain ⟨f, rfl⟩ : ∃ f, fuel = f + 1 := ⟨fuel - 1, by omega⟩
    have h0 : r.err = none := herr 0 (Nat.zero_le _)
    by_cases hroot : r.line.level > (last + 1) % 2 ^ 64
    · refine ⟨0, Nat.zero_le _, fun b lines => ?_⟩
      rw [Reader.loop]
      simp only [h0, hroot, if_true]
      rfl
    · have hne : r.readLine.line.level ≠ 0 := hin 1 (Nat.le_refl _) (by omega)
      obtain ⟨k, hk, hloop⟩ := ih f r.readLine r.line.level (by omega)
        (fun i hi => by
          have := herr (i + 1) (by omega)
          rwa [readLines_succ] at this)
        (fun i hi1 hi2 => by
          have := hin (i + 1) (by omega) (by omega)
          rwa [readLines_succ] at this)
        (by rwa [readLines_succ, readLines_succ] at hjump)
      refine ⟨k + 1, by omega, fun b lines => ?_⟩
      rw [Reader.loop]
      simp only [h0, hroot, if_false, hne]
      rw [hloop b, readLines_succ]

/-- C2.  Take any reader whose buffered line (read now if none is buffered)
came without error and passes the phase checks, so that a group is started.
If the next `n` lines are read without error and have levels other than 0 (they
belong to the group), and line `n + 1` is read without error with a level
greater than the level of the line before it plus 1, then `Record` returns no
record and `ErrInvalidLevel`.  The result and the reader afterwards are the same
for all builders (none is called), and the reader has no options. -/
theorem Record_level_jump (r : Reader) (n : Nat)
    (hstart : r.peek.startsGroup = true)
    (herr : ∀ i, i ≤ n + 1 → (r.peek.readLines i).err = none)
    (hin : ∀ i, 1 ≤ i → i ≤ n → (r.peek.readLines i).line.level ≠ 0)
    (hjump : (r.peek.readLines (n + 1)).line.level >
      (r.peek.readLines n).line.level + 1) :
    ∃ r', ∀ b : builders P B,
      Reader.Record b r = some ((none, some GoError.ErrInvalidLevel), r') := by
  have h0 : r.peek.err = none := herr 0 (Nat.zero_le _)
  have hph := readLines_phase r.peek
  have hlen := readLines_length r.peek.phase n (fun i hi => by
    rw [(hph i).2.1]; exact herr i (by omega))
  obtain ⟨k, _, hloop⟩ := loop_invalid (P := P) (B := B) n (r.peek.phase.t.length + 2)
    r.peek.phase 0 (by omega)
    (fun i hi => by rw [(hph i).2.1]; exact herr i hi)
    (fun i h1 h2 => by rw [(hph i).1]; exact hin i h1 h2)
    (by rw [(hph (n + 1)).1, (hph n).1]; exact hjump)
  refine ⟨r.peek.phase.readLines k, fun b => ?_⟩
  rw [Record_starts b r h0 hstart]
  exact hloop b _

theorem Record_level_jump_witness :
    (NewReader docLevelJump).peek.startsGroup = true ∧
    (∀ i, i ≤ 1 + 1 → ((NewReader docLevelJump).peek.readLines i).err = none) ∧
    (∀ i, 1 ≤ i → i ≤ 1 → ((NewReader docLevelJump).peek.readLines i).line.level ≠ 0) ∧
    ((NewReader docLevelJump).peek.readLines (1 + 1)).line.level >
      ((NewReader docLevelJump).peek.readLines 1).line.level + 1 ∧
    ∃ r', ∀ b : builders (List line) String,
      Reader.Record b (NewReader docLevelJump) =
        some ((none, some GoError.ErrInvalidLevel), r') :=
  ⟨by decide, by decide, by decide, by decide,
    Record_level_jump (NewReader docLevelJump) 1 (by decide) (by decide) (by decide)
      (by decide)⟩

/-! ## The claims about `readLine` -/

theorem ParseUint_error (s : String) (e : GoError) (h : (ParseUint s).2 = some e) :
    ∃ k, e = GoError.NumError s k := by
  unfold ParseUint at h
  split at h
  · simp at h; exact ⟨_, h.symm⟩
  · split at h
    · simp at h
    · simp at h; exact ⟨_, h.symm⟩

theorem readLine_not_level (r : Reader) (lv : token) (rest : tokeniser) (h0 : r.err = none)
    (ht : r.t = Except.ok lv :: rest) (hl : lv.typ ≠ tokenLevel) :
    r.readLine.err = some GoError.ErrNotLevel := by
  rw [readLine_eq_cases]
  unfold Reader.readLineCases
  simp [h0, ht, hl]

theorem readLine_level_error (r : Reader) (lv : token) (rest : tokeniser) (e : GoError)
    (h0 : r.err = none) (ht : r.t = Except.ok lv :: rest) (hl : lv.typ = tokenLevel)
    (hp : (ParseUint lv.data).2 = some e) :
    r.readLine.err = some e := by
  rw [readLine_eq_cases]
  unfold Reader.readLineCases
  simp [h0, ht, hl, hp]

theorem readLine_to_tag (r : Reader) (lv tg : token) (x : Option String) (rest : tokeniser)
    (h0 : r.err = none) (ht : r.t = Except.ok lv :: (xrefTokens x ++ Except.ok tg :: rest))
    (hl : lv.typ = tokenLevel) (hp : (ParseUint lv.data).2 = none)
    (hx : x = none → tg.typ ≠ tokenXref) :
    r.readLine = Reader.tagCases
      { r with t := Except.ok tg :: rest,
               line := { r.line with level := (ParseUint lv.data).1,
                                     xrefID := x.getD r.line.xrefID } } := by
  rw [readLine_eq_cases]
  unfold Reader.readLineCases
  simp only [h0, ht, hl, hp]
  unfold Reader.xrefCases
  cases x with
  | none => simp [xrefTokens, hx rfl]
  | some s => simp [xrefTokens, tok]

/-- C9 (amended).  With no error pending and a tokeniser that delivers every
token asked for, `readLine` fails with `ErrNotLevel` when the first token is not
a level token; with the error of `ParseUint` (a `NumError` holding the text, not
`ErrNotLevel`) when the text of the level token does not parse; with
`ErrNotType` when the token after the level and the optional cross-reference is
not a tag token; with `ErrNotLine` when the token after the tag is neither the
end of the line nor a value token; and it succeeds in every other case. -/
theorem readLine_classifies (r : Reader) (lv : token) (h0 : r.err = none) :
    (∀ rest, r.t = Except.ok lv :: rest → lv.typ ≠ tokenLevel →
      r.readLine.err = some GoError.ErrNotLevel) ∧
    (∀ rest, r.t = Except.ok lv :: rest → lv.typ = tokenLevel →
      (ParseUint lv.data).2 ≠ none →
      ∃ k, r.readLine.err = some (GoError.NumError lv.data k)) ∧
    (∀ x tg rest, r.t = Except.ok lv :: (xrefTokens x ++ Except.ok tg :: rest) →
      lv.typ = tokenLevel → (ParseUint lv.data).2 = none →
      (x = none → tg.typ ≠ tokenXref) → tg.typ ≠ tokenTag →
      r.readLine.err = some GoError.ErrNotType) ∧
    (∀ x tg v rest,
      r.t = Except.ok lv :: (xrefTokens x ++ Except.ok tg :: Except.ok v :: rest) →
      lv.typ = tokenLevel → (ParseUint lv.data).2 = none →
      (x = none → tg.typ ≠ tokenXref) → tg.typ = tokenTag →
      (v.typ ≠ tokenEndLine → v.typ ≠ tokenLine →
        r.readLine.err = some GoError.ErrNotLine) ∧
      (v.typ = tokenEndLine ∨ v.typ = tokenLine → r.readLine.err = none)) := by
  refine ⟨?_, ?_, ?_, ?_⟩
  · intro rest ht hl
    exact readLine_not_level r lv rest h0 ht hl
  · intro rest ht hl hp
    obtain ⟨e, he⟩ := Option.ne_none_iff_exists'.mp hp
    obtain ⟨k, hk⟩ := ParseUint_error _ _ he
    exact ⟨k, by rw [readLine_level_error r lv rest e h0 ht hl he, hk]⟩
  · intro x tg rest ht hl hp hx htg
    rw [readLine_to_tag r lv tg x rest h0 ht hl hp hx]
    unfold Reader.tagCases
    simp [htg]
  · intro x tg v rest ht hl hp hx htg
    rw [readLine_to_tag r lv tg x _ h0 ht hl hp hx]
    unfold Reader.tagCases
    constructor
    · intro h1 h2
      simp [htg, h1, h2]
    · intro h
      rcases h with h | h
      · simp [htg, h, h0]
      · have : v.typ ≠ tokenEndLine := by rw [h]; decide
        simp [htg, h, h0]

theorem readLine_classifies_witness :
    (NewReader docHeaderOnly).err = none ∧
    (NewReader docHeaderOnly).readLine.err = none ∧
    (∃ k, (NewReader docBadLevel).readLine.err = some (GoError.NumError "x" k)) ∧
    (NewReader [tok tokenTag "HEAD"]).readLine.err = some GoError.ErrNotLevel ∧
    (NewReader [tok tokenLevel "0", tok tokenLine "v"]).readLine.err =
      some GoError.ErrNotType ∧
    (NewReader [tok tokenLevel "0", tok tokenXref "@I1@", tok tokenTag "INDI",
      tok tokenLevel "1"]).readLine.err = some GoError.ErrNotLine :=
  ⟨rfl,
   ((readLine_classifies (NewReader docHeaderOnly) ⟨tokenLevel, "0"⟩ rfl).2.2.2 none
      ⟨tokenTag, "HEAD"⟩ ⟨tokenEndLine, ""⟩ _ rfl rfl (by decide) (by intro _; decide)
      rfl).2 (Or.inl rfl),
   (readLine_classifies (NewReader docBadLevel) ⟨tokenLevel, "x"⟩ rfl).2.1 _ rfl rfl
      (by decide),
   (readLine_classifies (NewReader [tok tokenTag "HEAD"]) ⟨tokenTag, "HEAD"⟩ rfl).1 _ rfl
      (by decide),
   (readLine_classifies (NewReader [tok tokenLevel "0", tok tokenLine "v"])
      ⟨tokenLevel, "0"⟩ rfl).2.2.1 none ⟨tokenLine, "v"⟩ [] rfl rfl (by decide)
      (by intro _; decide) (by decide),
   ((readLine_classifies (NewReader [tok tokenLevel "0", tok tokenXref "@I1@",
      tok tokenTag "INDI", tok tokenLevel "1"]) ⟨tokenLevel, "0"⟩ rfl).2.2.2 (some "@I1@")
      ⟨tokenTag, "INDI"⟩ ⟨tokenLevel, "1"⟩ [] rfl rfl (by decide) (by intro h; cases h)
      rfl).1 (by decide) (by decide)⟩

/-- C9 (refutation).  A level token whose text is not a number makes `readLine`
fail with the syntax error of `ParseUint`, and one whose decimal text does not
fit 64 bits with its range error; neither is `ErrNotLevel`. -/
theorem readLine_level_text_not_ErrNotLevel :
    (NewReader docBadLevel).readLine.err =
        some (GoError.NumError "x" NumErr.ErrSyntaxKind) ∧
      (NewReader docBadLevel).readLine.err ≠ some GoError.ErrNotLevel ∧
    (NewReader docHugeLevel).readLine.err =
        some (GoError.NumError "18446744073709551616" NumErr.ErrRangeKind) ∧
      (NewReader docHugeLevel).readLine.err ≠ some GoError.ErrNotLevel := by
  decide

/-- C10 (evaluation at the failing input).  Reading `0 @I1@ INDI`,
`1 NAME Ann`, `1 SEX` from a fresh reader, the third `readLine` succeeds and
leaves the line `1 SEX` with the cross-reference `@I1@` of the first line and
the value `Ann` of the second. -/
theorem readLine_keeps_stale_fields :
    ((NewReader docStale).readLines 3).err = none ∧
    ((NewReader docStale).readLines 3).line = ⟨1, "@I1@", "SEX", "Ann"⟩ := by
  decide

/-! ## Structural errors are not stored -/

theorem clean_tail (x : Except GoError token) (t : tokeniser) (h : tokeniser.clean (x :: t)) :
    tokeniser.clean t :=
  fun e he => h e (List.mem_cons_of_mem _ he)

theorem clean_head (e : GoError) (t : tokeniser)
    (h : tokeniser.clean (Except.error e :: t)) : e.structural = false :=
  h e (List.mem_cons_self _ _)

theorem tagCases_clean (r : Reader) (h : r.clean) : r.tagCases.clean := by
  obtain ⟨t, pk, l, e, hh, hr⟩ := r
  obtain ⟨he, ht⟩ := h
  simp only at he ht
  unfold Reader.tagCases
  rcases t with _ | ⟨(e1 | t1), rest1⟩
  · exact ⟨by simp [GoError.structural], ht⟩
  · refine ⟨?_, clean_tail _ _ ht⟩
    intro e' h'
    simp only [Option.some.injEq] at h'
    subst h'
    exact clean_head _ _ ht
  · have ht1 := clean_tail _ _ ht
    dsimp only
    split_ifs
    · exact ⟨by simp [GoError.structural], ht1⟩
    · rcases rest1 with _ | ⟨(e2 | t2), rest2⟩
      · exact ⟨by simp [GoError.structural], ht1⟩
      · refine ⟨?_, clean_tail _ _ ht1⟩
        intro e' h'
        simp only [Option.some.injEq] at h'
        subst h'
        exact clean_head _ _ ht1
      · have ht2 := clean_tail _ _ ht1
        dsimp only
        split_ifs
        · exact ⟨he, ht2⟩
        · exact ⟨by simp [GoError.structural], ht2⟩
        · exact ⟨he, ht2⟩

theorem xrefCases_clean (r : Reader) (h : r.clean) : r.xrefCases.clean := by
  obtain ⟨t, pk, l, e, hh, hr⟩ := r
  unfold Reader.xrefCases
  rcases t with _ | ⟨(e1 | t1), rest1⟩
  · exact tagCases_clean _ h
  · exact tagCases_clean _ h
  · dsimp only
    split_ifs
    · exact tagCases_clean _ ⟨h.1, clean_tail _ _ h.2⟩
    · exact tagCases_clean _ h

theorem readLine_clean (r : Reader) (h : r.clean) : r.readLine.clean := by
  obtain ⟨t, pk, l, e, hh, hr⟩ := r
  rw [readLine_eq_cases]
  unfold Reader.readLineCases
  cases e with
  | some e => exact h
  | none =>
    obtain ⟨he, ht⟩ := h
    simp only at he ht
    rcases t with _ | ⟨(e1 | t1), rest1⟩
    · exact ⟨by simp [GoError.structural], ht⟩
    · refine ⟨?_, clean_tail _ _ ht⟩
      intro e' h'
      simp only [Option.some.injEq] at h'
      subst h'
      exact clean_head _ _ ht
    · have ht1 := clean_tail _ _ ht
      dsimp only
      split_ifs
      · exact ⟨by simp [GoError.structural], ht1⟩
      · split
        · rename_i e' hp
          refine ⟨?_, ht1⟩
          intro e'' h''
          simp only [Option.some.injEq] at h''
          subst h''
          obtain ⟨k, hk⟩ := ParseUint_error _ _ hp
          rw [hk]
          rfl
        · exact xrefCases_clean _ ⟨he, ht1⟩

theorem dispatch_clean (b : builders P B) (hb : b.clean) (lines : List line) (e : GoError)
    (h : (dispatch b lines).2 = some e) : e.structural = false := by
  by_contra hs
  have hs' : e.structural = true := by simpa using hs
  have hc := hb (b.parseLines lines) e hs'
  unfold dispatch at h
  dsimp only at h
  by_cases h0 : (lines.headD ⟨0, "", "", ""⟩).tag = "HEAD"
  · rw [if_pos h0] at h
    exact hc.1 h
  rw [if_neg h0] at h
  by_cases h1 : (lines.headD ⟨0, "", "", ""⟩).tag = "SUBM"
  · rw [if_pos h1] at h
    exact hc.2.1 h
  rw [if_neg h1] at h
  by_cases h2 : (lines.headD ⟨0, "", "", ""⟩).tag = "FAM"
  · rw [if_pos h2] at h
    exact hc.2.2.1 h
  rw [if_neg h2] at h
  by_cases h3 : (lines.headD ⟨0, "", "", ""⟩).tag = "INDI"
  · rw [if_pos h3] at h
    exact hc.2.2.2.1 h
  rw [if_neg h3] at h
  by_cases h4 : (lines.headD ⟨0, "", "", ""⟩).tag = "OBJE"
  · rw [if_pos h4] at h
    exact hc.2.2.2.2.1 h
  rw [if_neg h4] at h
  by_cases h5 : (lines.headD ⟨0, "", "", ""⟩).tag = "NOTE"
  · rw [if_pos h5] at h
    exact hc.2.2.2.2.2.1 h
  rw [if_neg h5] at h
  by_cases h6 : (lines.headD ⟨0, "", "", ""⟩).tag = "REPO"
  · rw [if_pos h6] at h
    exact hc.2.2.2.2.2.2.1 h
  rw [if_neg h6] at h
  by_cases h7 : (lines.headD ⟨0, "", "", ""⟩).tag = "SOUR"
  · rw [if_pos h7] at h
    exact hc.2.2.2.2.2.2.2.1 h
  rw [if_neg h7] at h
  by_cases h8 : (lines.headD ⟨0, "", "", ""⟩).tag = "SUBN"
  · rw [if_pos h8] at h
    exact hc.2.2.2.2.2.2.2.2 h
  rw [if_neg h8] at h
  by_cases hx : extensionTag (lines.headD ⟨0, "", "", ""⟩).tag = true
  · rw [if_pos hx] at h
    simp at h
  · rw [if_neg hx] at h
    simp only [Option.some.injEq] at h
    subst h
    simp [GoError.structural] at hs'

theorem loop_structural (b : builders P B) (hb : b.clean) :
    ∀ (fuel : Nat) (r : Reader) (lines : List line) (last : Nat)
      (out : Option (Record P B) × Option GoError) (r' : Reader) (e : GoError),
      r.clean → Reader.loop b fuel r lines last = some (out, r') →
      out.2 = some e → e.structural = true →
      out.1 = none ∧ e = GoError.ErrInvalidLevel ∧ r'.err = none ∧ r'.peeked = r.peeked ∧
        r'.hadHeader = r.hadHeader ∧ r'.hadRecord = r.hadRecord := by
  intro fuel
  induction fuel with
  | zero =>
    intro r lines last out r' e _ h
    simp [Reader.loop] at h
  | succ f ih =>
    intro r lines last out r' e hc h he hs
    rw [Reader.loop] at h
    cases herr : r.err with
    | some e' =>
      simp only [herr, Option.some.injEq, Prod.mk.injEq] at h
      obtain ⟨hout, _⟩ := h
      rw [← hout] at he
      simp only [Option.some.injEq] at he
      subst he
      have := hc.1 e' herr
      rw [hs] at this
      cases this
    | none =>
      simp only [herr] at h
      split_ifs at h with hj h0
      · simp only [Option.some.injEq, Prod.mk.injEq] at h
        obtain ⟨hout, hr'⟩ := h
        subst hr'
        rw [← hout] at he ⊢
        simp only [Option.some.injEq] at he
        exact ⟨rfl, he.symm, herr, rfl, rfl, rfl⟩
      · simp only [Option.some.injEq, Prod.mk.injEq] at h
        obtain ⟨hout, _⟩ := h
        rw [← hout] at he
        have := dispatch_clean b hb _ e he
        rw [hs] at this
        cases this
      · have hf := readLine_frame r
        obtain ⟨h1, h2, h3, h4, h5, h6⟩ :=
          ih r.readLine _ _ out r' e (readLine_clean r hc) h he hs
        exact ⟨h1, h2, h3, h4.trans hf.1, h5.trans hf.2.1, h6.trans hf.2.2⟩

theorem peek_clean (r : Reader) (h : r.clean) : r.peek.clean := by
  unfold Reader.peek
  split_ifs
  · exact readLine_clean r h
  · exact h

theorem group_structural (b : builders P B) (hb : b.clean) (q r' : Reader)
    (out : Option (Record P B) × Option GoError) (e : GoError) (hq : q.clean)
    (h : Reader.group b q = some (out, r')) (he : out.2 = some e)
    (hs : e.structural = true) :
    out.1 = none ∧ e = GoError.ErrInvalidLevel ∧ r'.err = none ∧ r'.peeked = q.peeked ∧
      r'.hadHeader = q.hadHeader ∧ r'.hadRecord = q.hadRecord :=
  loop_structural b hb _ q _ _ out r' e hq h he hs

theorem sampleBuilders_clean : sampleBuilders.clean := by
  intro p e _
  simp [sampleBuilders]

theorem docNoHeader_clean : (NewReader docNoHeader).clean := by
  refine ⟨by simp [NewReader], ?_⟩
  intro e he
  simp [NewReader, docNoHeader, tok] at he

/-! ## Stored errors -/

theorem readLine_of_err (r : Reader) (e : GoError) (h : r.err = some e) :
    r.readLine = r := by
  unfold Reader.readLine
  simp [h]

theorem peek_of_err (r : Reader) (e : GoError) (h : r.err = some e) :
    r.peek = { r with peeked := true } := by
  unfold Reader.peek
  rw [readLine_of_err r e h]
  cases hp : r.peeked
  · simp
  · obtain ⟨t, pk, l, qe, hh, hr⟩ := r
    simp only at hp
    subst hp
    simp

theorem Record_stored_err (b : builders P B) (r : Reader) (e : GoError)
    (h : r.err = some e) :
    Reader.Record b r = some ((none, some e), { r with peeked := true }) := by
  have hp := peek_of_err r e h
  rw [Record_of_err b r e (by rw [hp]; exact h), hp]

theorem calls_stored_err (b : builders P B) (k : Nat) :
    ∀ (r : Reader) (e : GoError), r.err = some e →
      Reader.calls b k r = List.replicate k (none, some e) ∧
      ∃ rk, Reader.afterCalls b k r = some rk ∧ rk.t = r.t ∧ rk.err = some e := by
  induction k with
  | zero =>
    intro r e h
    exact ⟨rfl, r, rfl, rfl, h⟩
  | succ k ih =>
    intro r e h
    obtain ⟨h1, rk, h2, h3, h4⟩ := ih { r with peeked := true } e h
    refine ⟨?_, rk, ?_, h3, h4⟩
    · simp only [Reader.calls, Record_stored_err b r e h, h1, List.replicate_succ]
    · simp only [Reader.afterCalls, Record_stored_err b r e h, h2]

/-- C11.  Once the reader stores an error (`readLine` is the only place that
stores one: a tokeniser error, `ErrNotLevel`, the parse error of the level,
`ErrNotType` or `ErrNotLine`), every call of `Record` returns no record and
that same error, and leaves the tokeniser as it is: no further token is
pulled, however many calls follow. -/
theorem Record_stored_error_is_sticky (b : builders P B) (r : Reader) (e : GoError)
    (h : r.err = some e) :
    Reader.Record b r = some ((none, some e), { r with peeked := true }) ∧
    ∀ k, Reader.calls b k r = List.replicate k (none, some e) ∧
      ∃ rk, Reader.afterCalls b k r = some rk ∧ rk.t = r.t ∧ rk.err = some e :=
  ⟨Record_stored_err b r e h, fun k => calls_stored_err b k r e h⟩

theorem Record_stored_error_is_sticky_witness :
    ((NewReader docBadLevel).readLine).err =
      some (GoError.NumError "x" NumErr.ErrSyntaxKind) ∧
    Reader.Record sampleBuilders (NewReader docBadLevel).readLine =
      some ((none, some (GoError.NumError "x" NumErr.ErrSyntaxKind)),
        { (NewReader docBadLevel).readLine with peeked := true }) ∧
    ∀ k, Reader.calls sampleBuilders k (NewReader docBadLevel).readLine =
        List.replicate k (none, some (GoError.NumError "x" NumErr.ErrSyntaxKind)) ∧
      ∃ rk, Reader.afterCalls sampleBuilders k (NewReader docBadLevel).readLine = some rk ∧
        rk.t = (NewReader docBadLevel).readLine.t ∧
        rk.err = some (GoError.NumError "x" NumErr.ErrSyntaxKind) :=
  ⟨by decide,
    Record_stored_error_is_sticky sampleBuilders (NewReader docBadLevel).readLine
      (GoError.NumError "x" NumErr.ErrSyntaxKind) (by decide)⟩

/-! ## Termination and the tokens consumed -/

theorem drop_drop_exists (t : tokeniser) (j : Nat) (s : tokeniser)
    (h : ∃ k, s = (t.drop j).drop k) : ∃ k, s = t.drop k := by
  obtain ⟨k, hk⟩ := h
  exact ⟨j + k, by rw [hk, List.drop_drop]⟩

theorem tagCases_drop (r : Reader) : ∃ k, r.tagCases.t = r.t.drop k := by
  obtain ⟨t, pk, l, e, hh, hr⟩ := r
  unfold Reader.tagCases
  rcases t with _ | ⟨(e1 | t1), rest1⟩
  · exact ⟨0, rfl⟩
  · exact ⟨1, rfl⟩
  · dsimp only
    split_ifs
    · exact ⟨1, rfl⟩
    · rcases rest1 with _ | ⟨(e2 | t2), rest2⟩
      · exact ⟨1, rfl⟩
      · exact ⟨2, rfl⟩
      · dsimp only
        split_ifs
        · exact ⟨2, rfl⟩
        · exact ⟨2, rfl⟩
        · exact ⟨2, rfl⟩

theorem xrefCases_drop (r : Reader) : ∃ k, r.xrefCases.t = r.t.drop k := by
  obtain ⟨t, pk, l, e, hh, hr⟩ := r
  unfold Reader.xrefCases
  rcases t with _ | ⟨(e1 | t1), rest1⟩
  · exact tagCases_drop _
  · exact tagCases_drop _
  · dsimp only
    split_ifs
    · exact drop_drop_exists _ 1 _ (tagCases_drop ⟨rest1, pk, _, e, hh, hr⟩)
    · exact tagCases_drop _

theorem readLine_drop (r : Reader) : ∃ k, r.readLine.t = r.t.drop k := by
  obtain ⟨t, pk, l, e, hh, hr⟩ := r
  rw [readLine_eq_cases]
  unfold Reader.readLineCases
  cases e with
  | some e => exact ⟨0, rfl⟩
  | none =>
    rcases t with _ | ⟨(e1 | t1), rest1⟩
    · exact ⟨0, rfl⟩
    · exact ⟨1, rfl⟩
    · dsimp only
      split_ifs
      · exact ⟨1, rfl⟩
      · split
        · exact ⟨1, rfl⟩
        · exact drop_drop_exists _ 1 _ (xrefCases_drop ⟨rest1, pk, _, none, hh, hr⟩)

theorem loop_total (b : builders P B) :
    ∀ (fuel : Nat) (r : Reader) (lines : List line) (last : Nat),
      (r.t.length + 2 ≤ fuel ∨ (r.err ≠ none ∧ 1 ≤ fuel)) →
      ∃ out r', Reader.loop b fuel r lines last = some (out, r') ∧
        r'.peeked = r.peeked ∧ r'.hadHeader = r.hadHeader ∧ r'.hadRecord = r.hadRecord ∧
        ∃ k, r'.t = r.t.drop k := by
  intro fuel
  induction fuel with
  | zero =>
    intro r lines last h
    omega
  | succ f ih =>
    intro r lines last h
    rw [Reader.loop]
    cases herr : r.err with
    | some e => exact ⟨_, r, rfl, rfl, rfl, rfl, 0, rfl⟩
    | none =>
      have hf : r.t.length + 2 ≤ f + 1 := by
        rcases h with h | h
        · exact h
        · exact absurd herr h.1
      dsimp only
      have hfr := readLine_frame r
      obtain ⟨k1, hk1⟩ := readLine_drop r
      split_ifs with hj h0
      · exact ⟨_, r, rfl, rfl, rfl, rfl, 0, rfl⟩
      · exact ⟨_, r.readLine, rfl, hfr.1, hfr.2.1, hfr.2.2, k1, hk1⟩
      · have hpre : r.readLine.t.length + 2 ≤ f ∨ (r.readLine.err ≠ none ∧ 1 ≤ f) := by
          cases h1 : r.readLine.err with
          | none =>
            have := (readLine_length r).2 herr h1
            left; omega
          | some e1 =>
            right
            exact ⟨by simp, by omega⟩
        obtain ⟨out, r', hl, h2, h3, h4, k, hk⟩ := ih r.readLine (lines ++ [r.line])
          r.line.level hpre
        refine ⟨out, r', hl, h2.trans hfr.1, h3.trans hfr.2.1, h4.trans hfr.2.2, k1 + k, ?_⟩
        rw [hk, hk1, List.drop_drop]

theorem peek_drop (r : Reader) : ∃ k, r.peek.t = r.t.drop k := by
  unfold Reader.peek
  split_ifs
  · exact readLine_drop r
  · exact ⟨0, rfl⟩

theorem group_total (b : builders P B) (q : Reader) :
    ∃ out r', Reader.group b q = some (out, r') ∧
      r'.peeked = q.peeked ∧ r'.hadHeader = q.hadHeader ∧ r'.hadRecord = q.hadRecord ∧
      ∃ k, r'.t = q.t.drop k :=
  loop_total b _ q _ _ (Or.inl (Nat.le_refl _))

/-- What a call of `Record` can do to the reader: the result exists, the
tokens left are a tail of the tokens before, and the phase flags either stay as
they are or `hadHeader` becomes true and `hadRecord` does not fall. -/
theorem Record_total (b : builders P B) (r : Reader) :
    ∃ out r', Reader.Record b r = some (out, r') ∧ (∃ k, r'.t = r.t.drop k) ∧
      ((r'.hadHeader = r.hadHeader ∧ r'.hadRecord = r.hadRecord) ∨
        (r'.hadHeader = true ∧ (r.hadRecord = true → r'.hadRecord = true))) := by
  obtain ⟨k0, hk0⟩ := peek_drop r
  have hfl := peek_flags r
  unfold Reader.Record
  generalize r.peek = q at *
  obtain ⟨t, pk, l, qe, hh, hr⟩ := q
  simp only at hk0 hfl
  have keep : ∀ q0 : Reader, q0.t = t → q0.hadHeader = hh → q0.hadRecord = hr →
      (∃ k, q0.t = r.t.drop k) ∧
      ((q0.hadHeader = r.hadHeader ∧ q0.hadRecord = r.hadRecord) ∨
        (q0.hadHeader = true ∧ (r.hadRecord = true → q0.hadRecord = true))) :=
    fun q0 h1 h2 h3 => ⟨⟨k0, h1.trans hk0⟩, Or.inl ⟨h2.trans hfl.1, h3.trans hfl.2⟩⟩
  have grp : ∀ q0 : Reader, q0.t = t → q0.hadHeader = true →
      (r.hadRecord = true → q0.hadRecord = true) →
      ∃ out r', Reader.group b q0 = some (out, r') ∧ (∃ k, r'.t = r.t.drop k) ∧
        ((r'.hadHeader = r.hadHeader ∧ r'.hadRecord = r.hadRecord) ∨
          (r'.hadHeader = true ∧ (r.hadRecord = true → r'.hadRecord = true))) := by
    intro q0 h1 h2 h3
    obtain ⟨out, r', hg, _, h5, h6, k, hk⟩ := group_total b q0
    refine ⟨out, r', hg, ⟨k0 + k, ?_⟩, Or.inr ⟨h5.trans h2, fun h => h6.trans (h3 h)⟩⟩
    rw [hk, h1, hk0, List.drop_drop]
  cases qe with
  | some e => exact ⟨_, _, rfl, keep _ rfl rfl rfl⟩
  | none =>
    dsimp only
    cases hh <;> cases hr <;> simp only [Bool.not_false, Bool.not_true, if_true]
    · split_ifs
      · exact ⟨_, _, rfl, keep _ rfl rfl rfl⟩
      · exact grp _ rfl rfl (fun h => absurd (hfl.2.trans h) (by decide))
    · split_ifs
      · exact ⟨_, _, rfl, keep _ rfl rfl rfl⟩
      · exact grp _ rfl rfl (fun _ => rfl)
    · simp only [Bool.false_eq_true, if_false]
      split_ifs
      · exact grp _ rfl rfl (fun _ => rfl)
      · exact ⟨_, _, rfl, keep _ rfl rfl rfl⟩
      · exact grp _ rfl rfl (fun h => absurd (hfl.2.trans h) (by decide))
    · simp only [Bool.false_eq_true, if_false]
      split_ifs
      · exact ⟨_, _, rfl, keep _ rfl rfl rfl⟩
      · exact grp _ rfl rfl (fun _ => rfl)

/-- C20.  On the finite token stream of the reader, every call of `Record`
returns: the accumulation loop needs no more passes than there are tokens left
plus two (it reads one line per pass and stops at the first line of level 0,
level jump or stored error).  The tokens it has asked for are a front part of
the stream, at most all of it; the rest is left in the tokeniser. -/
theorem Record_terminates (b : builders P B) (r : Reader) :
    ∃ out r' k, Reader.Record b r = some (out, r') ∧ k ≤ r.t.length ∧
      r'.t = r.t.drop k := by
  obtain ⟨out, r', h, ⟨k, hk⟩, _⟩ := Record_total b r
  by_cases hle : k ≤ r.t.length
  · exact ⟨out, r', k, h, hle, hk⟩
  · refine ⟨out, r', r.t.length, h, Nat.le_refl _, ?_⟩
    rw [hk, List.drop_eq_nil_of_le (by omega), List.drop_eq_nil_of_le (Nat.le_refl _)]

theorem Record_flags (b : builders P B) (r r' : Reader)
    (out : Option (Record P B) × Option GoError)
    (h : Reader.Record b r = some (out, r')) :
    (r'.hadHeader = r.hadHeader ∧ r'.hadRecord = r.hadRecord) ∨
      (r'.hadHeader = true ∧ (r.hadRecord = true → r'.hadRecord = true)) := by
  obtain ⟨out1, r1, h1, _, hfl⟩ := Record_total b r
  rw [h] at h1
  simp only [Option.some.injEq, Prod.mk.injEq] at h1
  rw [h1.2]
  exact hfl

theorem Reachable_inv (b : builders P B) (r : Reader) (h : Reachable b r) :
    r.hadRecord = true → r.hadHeader = true := by
  induction h with
  | start t => intro h; simp [NewReader] at h
  | call r r' out _ hcall ih =>
    intro h
    rcases Record_flags b r r' out hcall with ⟨h1, h2⟩ | ⟨h1, _⟩
    · rw [h1]; exact ih (by rw [← h2]; exact h)
    · exact h1

/-- C18.  In every reader reachable from `NewReader` by calls of `Record`,
`hadRecord` implies `hadHeader`, and a further call of `Record` turns neither
flag from true to false. -/
theorem Record_flags_forward (b : builders P B) (r : Reader) (h : Reachable b r) :
    (r.hadRecord = true → r.hadHeader = true) ∧
    ∀ out r', Reader.Record b r = some (out, r') →
      (r.hadHeader = true → r'.hadHeader = true) ∧
      (r.hadRecord = true → r'.hadRecord = true) := by
  refine ⟨Reachable_inv b r h, ?_⟩
  intro out r' hcall
  rcases Record_flags b r r' out hcall with ⟨h1, h2⟩ | ⟨h1, h2⟩
  · exact ⟨fun hx => by rw [h1]; exact hx, fun hx => by rw [h2]; exact hx⟩
  · exact ⟨fun _ => h1, h2⟩

theorem Record_flags_forward_witness :
    Reachable sampleBuilders readerAtIndividual ∧
    (readerAtIndividual.hadRecord = true → readerAtIndividual.hadHeader = true) ∧
    ∀ out r', Reader.Record sampleBuilders readerAtIndividual = some (out, r') →
      (readerAtIndividual.hadHeader = true → r'.hadHeader = true) ∧
      (readerAtIndividual.hadRecord = true → r'.hadRecord = true) :=
  have hr : Reachable sampleBuilders readerAtIndividual :=
    Reachable.call (NewReader docIndividual) readerAtIndividual
      (some (Record.built "Header"), none) (Reachable.start docIndividual) (by decide)
  ⟨hr, Record_flags_forward sampleBuilders readerAtIndividual hr⟩

/-! ## Lookahead, trailer, buffer -/

/-- C15.  When a call of `Record` completes a group and the line of level 0
that ends it was read without error, the reader afterwards has that line
buffered (`peeked` is true, no error stored) and the tokeniser stands right
after it; the first statement of the next call therefore reads nothing
(`peek` leaves the reader as it is) and the next call works on exactly that
line. -/
theorem Record_keeps_lookahead (b : builders P B) (r : Reader) (n : Nat)
    (hstart : r.peek.startsGroup = true) (hgroup : r.peek.completesGroup n)
    (hnext : (r.peek.readLines (n + 1)).err = none) :
    ∃ out r', Reader.Record b r = some (out, r') ∧
      r'.peeked = true ∧ r'.err = none ∧
      r'.line = (r.peek.readLines (n + 1)).line ∧
      r'.line.level = 0 ∧
      r'.t = (r.peek.readLines (n + 1)).t ∧
      r'.peek = r' := by
  have hph := readLines_phase r.peek (n + 1)
  have hfr := readLines_frame r.peek.phase (n + 1)
  have hpk : (r.peek.phase.readLines (n + 1)).peeked = true := by
    rw [hfr.1, (phase_flags r.peek).1]; exact peek_peeked r
  refine ⟨_, _, Record_complete b r n hstart hgroup, hpk, ?_, hph.1, ?_, hph.2.2,
    peek_of_peeked _ hpk⟩
  · rw [hph.2.1]; exact hnext
  · rw [hph.1]; exact hgroup.2.2.2

theorem Record_keeps_lookahead_witness :
    readerAtIndividual.peek.startsGroup = true ∧
    readerAtIndividual.peek.completesGroup 1 ∧
    (readerAtIndividual.peek.readLines 2).err = none ∧
    ∃ out r', Reader.Record sampleBuilders readerAtIndividual = some (out, r') ∧
      r'.peeked = true ∧ r'.err = none ∧
      r'.line = (readerAtIndividual.peek.readLines 2).line ∧
      r'.line.level = 0 ∧
      r'.t = (readerAtIndividual.peek.readLines 2).t ∧
      r'.peek = r' :=
  have hg : readerAtIndividual.peek.completesGroup 1 :=
    ⟨by decide, by decide, by decide, by decide⟩
  ⟨by decide, hg, by decide,
    Record_keeps_lookahead sampleBuilders readerAtIndividual 1 (by decide) hg (by decide)⟩

theorem Record_trailer_state (b : builders P B) (r : Reader) (herr : r.peek.err = none)
    (hh : r.peek.hadHeader = true) (hr : r.peek.hadRecord = true)
    (htag : r.peek.line.tag = "TRLR") :
    Reader.Record b r =
      some ((some Record.RecordTrailer, none), { r.peek with peeked := false }) := by
  unfold Reader.Record
  generalize r.peek = q at *
  obtain ⟨t, pk, l, e, h1, h2⟩ := q
  simp only at herr hh hr htag
  subst herr hh hr
  simp [htag]

theorem readLine_nil (r : Reader) (h0 : r.err = none) (ht : r.t = []) :
    r.readLine = { r with err := some GoError.EOF } := by
  rw [readLine_eq_cases]
  unfold Reader.readLineCases
  obtain ⟨t, pk, l, e, h1, h2⟩ := r
  simp only at h0 ht
  subst h0 ht
  rfl

theorem peek_at_end (q : Reader) (hp : q.peeked = false) (h0 : q.err = none)
    (ht : q.t = []) :
    q.peek = { q with peeked := true, err := some GoError.EOF } := by
  unfold Reader.peek
  rw [readLine_nil q h0 ht]
  simp [hp]

/-- C12 (refutation).  On `0 HEAD`, `0 INDI`, `0 TRLR`, `0 INDI`, `0 TRLR` the
third call of `Record` returns the trailer and the fourth and fifth return a
further individual and a further trailer, each with a nil error. -/
theorem Record_decodes_after_trailer :
    Reader.calls sampleBuilders 5 (NewReader docAfterTrailer) =
      [(some (Record.built "Header"), none), (some (Record.built "Individual"), none),
       (some Record.RecordTrailer, none), (some (Record.built "Individual"), none),
       (some Record.RecordTrailer, none)] := by
  decide

/-- C12 (amended).  A call of `Record` that finds a `TRLR` line buffered
without error, after the header and a content record, returns `RecordTrailer`
with a nil error and drops the buffered line; the reader keeps no mark of the
end.  When the input is used up at that point, every later call returns no
record and `io.EOF`. -/
theorem Record_trailer_then_end_of_input (b : builders P B) (r : Reader)
    (herr : r.peek.err = none) (hh : r.peek.hadHeader = true)
    (hr : r.peek.hadRecord = true) (htag : r.peek.line.tag = "TRLR") :
    Reader.Record b r =
      some ((some Record.RecordTrailer, none), { r.peek with peeked := false }) ∧
    (r.peek.t = [] → ∀ k, Reader.calls b (k + 1) r =
      (some Record.RecordTrailer, none) :: List.replicate k (none, some GoError.EOF)) := by
  have h1 := Record_trailer_state b r herr hh hr htag
  refine ⟨h1, ?_⟩
  intro ht k
  simp only [Reader.calls, h1]
  congr 1
  cases k with
  | zero => rfl
  | succ j =>
    have hq := peek_at_end { r.peek with peeked := false } rfl herr ht
    have hrec := Record_of_err b { r.peek with peeked := false } GoError.EOF
      (by rw [hq])
    simp only [Reader.calls, hrec, List.replicate_succ]
    congr 1
    exact (calls_stored_err b j _ GoError.EOF (by rw [hq])).1

theorem Record_trailer_then_end_of_input_witness :
    readerAtTrailer.peek.err = none ∧ readerAtTrailer.peek.hadHeader = true ∧
    readerAtTrailer.peek.hadRecord = true ∧ readerAtTrailer.peek.line.tag = "TRLR" ∧
    Reader.Record sampleBuilders readerAtTrailer =
      some ((some Record.RecordTrailer, none), { readerAtTrailer.peek with peeked := false }) ∧
    (readerAtTrailer.peek.t = [] → ∀ k, Reader.calls sampleBuilders (k + 1) readerAtTrailer =
      (some Record.RecordTrailer, none) :: List.replicate k (none, some GoError.EOF)) :=
  ⟨by decide, by decide, by decide, by decide,
    Record_trailer_then_end_of_input sampleBuilders readerAtTrailer (by decide) (by decide)
      (by decide) (by decide)⟩

/-- C14 (evaluation at the failing input).  On `0 HEAD`, `0 @I1@ INDI`,
`1 NAME Ann`, `0 TRLR` the buffer handed to `parseLines` for the individual is
the `INDI` line twice and then the `NAME` line, and the buffer of the header is
the `HEAD` line twice: the root line is stored at index 0 and appended again by
the first pass of the loop. -/
theorem Record_buffer_repeats_root :
    Reader.calls echoBuilders 2 (NewReader docIndividual) =
      [(some (Record.built [⟨0, "", "HEAD", ""⟩, ⟨0, "", "HEAD", ""⟩]), none),
       (some (Record.built [⟨0, "@I1@", "INDI", ""⟩, ⟨0, "@I1@", "INDI", ""⟩,
          ⟨1, "@I1@", "NAME", "Ann"⟩]), none)] := by
  decide

/-- C16 (evaluation at the failing input).  On `0 HEAD`, `0 SUBM`, `0 TRLR`
the reader after the header and the submitter record still has `hadRecord`
false and the third call returns `ErrNoRecords`; on `0 HEAD`, `0 @I1@ INDI`,
`1 NAME Ann`, `0 TRLR` it has `hadRecord` true after the two records and the
third call returns the trailer. -/
theorem Record_SUBM_leaves_hadRecord_false :
    (Reader.afterCalls sampleBuilders 2 (NewReader docSubmitterOnly)).map
        (fun r => (r.hadHeader, r.hadRecord)) = some (true, false) ∧
    (Reader.calls sampleBuilders 3 (NewReader docSubmitterOnly)).getLast? =
      some (none, some GoError.ErrNoRecords) ∧
    (Reader.afterCalls sampleBuilders 2 (NewReader docIndividual)).map
        (fun r => (r.hadHeader, r.hadRecord)) = some (true, true) ∧
    (Reader.calls sampleBuilders 3 (NewReader docIndividual)).getLast? =
      some (some Record.RecordTrailer, none) := by
  decide

/-- C17 (evaluation at the failing input).  On `1 HEAD`, `0 INDI`, `0 TRLR`
the first line is assembled with level 1 and the first call of `Record`
returns the header record with a nil error. -/
theorem Record_accepts_level_one_header :
    (NewReader docLevelOneHead).readLine.err = none ∧
    (NewReader docLevelOneHead).readLine.line.level = 1 ∧
    Reader.calls sampleBuilders 1 (NewReader docLevelOneHead) =
      [(some (Record.built "Header"), none)] := by
  decide

/-- C19 (evaluation at the failing input).  On `0 HEAD`, `0 INDI` the second
call of `Record` looks ahead into the end of the input, `readLine` fails with
`io.EOF`, and the call still returns the individual with a nil error (the
reader's line has kept level 0); the error comes with the third call.  On
`0 HEAD`, `0 INDI`, `1 NAME Ann` the second call returns no record and
`io.EOF`. -/
theorem Record_at_end_of_input_depends_on_level :
    Reader.calls sampleBuilders 3 (NewReader docEndsAfterRoot) =
      [(some (Record.built "Header"), none), (some (Record.built "Individual"), none),
       (none, some GoError.EOF)] ∧
    Reader.calls sampleBuilders 2 (NewReader docEndsAfterNested) =
      [(some (Record.built "Header"), none), (none, some GoError.EOF)] := by
  decide

/-! ## Options -/

/-- C13.  The zero value of `options` has all seven flags false; each of the
seven option functions sets its own flag to true and leaves the other six as
they are; applying an option twice is the same as applying it once, and any
two options can be applied in either order. -/
theorem options_set_own_flag :
    zeroOptions = ⟨false, false, false, false, false, false, false⟩ ∧
    (∀ o : options,
      AllowUnknownTags o = ⟨true, o.allowWrongLength, o.allowMissingRequired,
        o.allowMoreThanAllowed, o.ignoreInvalidValue, o.allowUnknownCharset,
        o.allowTerminatorsInValue⟩ ∧
      AllowWrongLength o = ⟨o.allowUnknownTags, true, o.allowMissingRequired,
        o.allowMoreThanAllowed, o.ignoreInvalidValue, o.allowUnknownCharset,
        o.allowTerminatorsInValue⟩ ∧
      AllowMissingRequired o = ⟨o.allowUnknownTags, o.allowWrongLength, true,
        o.allowMoreThanAllowed, o.ignoreInvalidValue, o.allowUnknownCharset,
        o.allowTerminatorsInValue⟩ ∧
      AllowMoreThanAllowed o = ⟨o.allowUnknownTags, o.allowWrongLength,
        o.allowMissingRequired, true, o.ignoreInvalidValue, o.allowUnknownCharset,
        o.allowTerminatorsInValue⟩ ∧
      IgnoreInvalidValue o = ⟨o.allowUnknownTags, o.allowWrongLength,
        o.allowMissingRequired, o.allowMoreThanAllowed, true, o.allowUnknownCharset,
        o.allowTerminatorsInValue⟩ ∧
      AllowUnknownCharset o = ⟨o.allowUnknownTags, o.allowWrongLength,
        o.allowMissingRequired, o.allowMoreThanAllowed, o.ignoreInvalidValue, true,
        o.allowTerminatorsInValue⟩ ∧
      AllowTerminatorsInValue o = ⟨o.allowUnknownTags, o.allowWrongLength,
        o.allowMissingRequired, o.allowMoreThanAllowed, o.ignoreInvalidValue,
        o.allowUnknownCharset, true⟩) ∧
    (∀ f ∈ optionFuncs, ∀ o : options, f (f o) = f o) ∧
    (∀ f ∈ optionFuncs, ∀ g ∈ optionFuncs, ∀ o : options, f (g o) = g (f o)) := by
  refine ⟨rfl, fun o => ⟨rfl, rfl, rfl, rfl, rfl, rfl, rfl⟩, ?_, ?_⟩
  · intro f hf o
    simp only [optionFuncs, List.mem_cons, List.mem_singleton, List.not_mem_nil,
      or_false] at hf
    rcases hf with rfl | rfl | rfl | rfl | rfl | rfl | rfl <;> rfl
  · intro f hf g hg o
    simp only [optionFuncs, List.mem_cons, List.mem_singleton, List.not_mem_nil,
      or_false] at hf hg
    rcases hf with rfl | rfl | rfl | rfl | rfl | rfl | rfl <;>
      rcases hg with rfl | rfl | rfl | rfl | rfl | rfl | rfl <;> rfl

/-! ## Revised statements: builders and unknown tags -/

/-- C8 (evaluation at the failing input).  At the `INDI` group of `0 HEAD`,
`0 @I1@ INDI`, `1 NAME Ann`, `0 TRLR`, with builders that hand back the parsed
lines they get, `Record` returns the pair of `parseIndividual` unchanged, but
the builder was applied to `parseLines` of `INDI`, `INDI`, `NAME` and not to
the parsed lines of the group, `INDI`, `NAME`. -/
theorem Record_builder_applied_to_repeated_root :
    (Reader.Record echoBuilders readerAtIndividual).map Prod.fst =
      some (echoBuilders.parseIndividual (echoBuilders.parseLines
        [⟨0, "@I1@", "INDI", ""⟩, ⟨0, "@I1@", "INDI", ""⟩, ⟨1, "@I1@", "NAME", "Ann"⟩])) ∧
    (Reader.Record echoBuilders readerAtIndividual).map Prod.fst ≠
      some (echoBuilders.parseIndividual (echoBuilders.parseLines
        [⟨0, "@I1@", "INDI", ""⟩, ⟨1, "@I1@", "NAME", "Ann"⟩])) := by
  decide

/-- C7 (refutation).  On `0 HEAD`, `0 FOOX`, `0 TRLR` the second call of
`Record` returns `ErrUnknownTag`.  More: the whole state of the decoder is the
six fields of `Reader`, none of which holds options, and there is no state of
it at all, for any builders, in which a completed group with the root tag
`FOOX` comes back with a nil error.  So no way of setting `AllowUnknownTags` on
the decoder can give the success the claim promises. -/
theorem Record_FOOX_never_succeeds :
    (Reader.calls sampleBuilders 2 (NewReader docFOOX)).map Prod.snd =
      [none, some GoError.ErrUnknownTag] ∧
    ¬ ∃ (b : builders (List line) String) (r r' : Reader) (n : Nat)
        (rec : Option (Record (List line) String)),
      r.peek.startsGroup = true ∧ r.peek.completesGroup n ∧ r.peek.line.tag = "FOOX" ∧
        Reader.Record b r = some ((rec, none), r') := by
  refine ⟨by decide, ?_⟩
  rintro ⟨b, r, r', n, rec, hstart, hgroup, htag, hrec⟩
  rw [Record_complete b r n hstart hgroup,
    dispatch_unknown b _ _ (by rw [htag]; decide), htag] at hrec
  have hx : extensionTag "FOOX" = false := by decide
  rw [hx] at hrec
  simp at hrec

/-- C7 (amended).  For every reader (the reader has no options, so there is
nothing to set), a completed group whose root tag is none of the nine record
tags and does not begin with `_` makes `Record` return a record together with
`ErrUnknownTag`, never a nil error.  The record is `parseLines` of the buffer
that was accumulated: the root line, the root line again, and the lines read
after it. -/
theorem Record_unknown_tag_is_error (b : builders P B) (r : Reader) (n : Nat)
    (hstart : r.peek.startsGroup = true) (hgroup : r.peek.completesGroup n)
    (htag : r.peek.line.tag ∉
      ["HEAD", "SUBM", "FAM", "INDI", "OBJE", "NOTE", "REPO", "SOUR", "SUBN"])
    (hext : ¬ ∃ rest, r.peek.line.tag.data = '_' :: rest) :
    Reader.Record b r =
      some ((some (Record.plines (b.parseLines
          (r.peek.line :: r.peek.line :: Reader.linesRead n r.peek.readLine))),
        some GoError.ErrUnknownTag), r.peek.phase.readLines (n + 1)) ∧
    ∀ (rec : Option (Record P B)) (r' : Reader),
      Reader.Record b r ≠ some ((rec, none), r') := by
  have hx : extensionTag r.peek.line.tag = false := by
    cases h : extensionTag r.peek.line.tag
    · rfl
    · exact absurd ((extensionTag_iff _).mp h) hext
  have hrec : Reader.Record b r =
      some ((some (Record.plines (b.parseLines
          (r.peek.line :: r.peek.line :: Reader.linesRead n r.peek.readLine))),
        some GoError.ErrUnknownTag), r.peek.phase.readLines (n + 1)) := by
    rw [Record_complete b r n hstart hgroup, dispatch_unknown b _ _ htag, hx]
    simp [Reader.linesRead]
  refine ⟨hrec, ?_⟩
  intro rec r' h
  rw [hrec] at h
  simp at h

theorem Record_unknown_tag_is_error_witness :
    readerAtFOOX.peek.startsGroup = true ∧
    readerAtFOOX.peek.completesGroup 0 ∧
    readerAtFOOX.peek.line.tag ∉
      ["HEAD", "SUBM", "FAM", "INDI", "OBJE", "NOTE", "REPO", "SOUR", "SUBN"] ∧
    (¬ ∃ rest, readerAtFOOX.peek.line.tag.data = '_' :: rest) ∧
    Reader.Record sampleBuilders readerAtFOOX =
      some ((some (Record.plines (sampleBuilders.parseLines
          (readerAtFOOX.peek.line :: readerAtFOOX.peek.line ::
            Reader.linesRead 0 readerAtFOOX.peek.readLine))),
        some GoError.ErrUnknownTag), readerAtFOOX.peek.phase.readLines 1) ∧
    ∀ (rec : Option (Record (List line) String)) (r' : Reader),
      Reader.Record sampleBuilders readerAtFOOX ≠ some ((rec, none), r') :=
  have hg : readerAtFOOX.peek.completesGroup 0 :=
    ⟨by decide, by decide, by decide, by decide⟩
  have hx : ¬ ∃ rest, readerAtFOOX.peek.line.tag.data = '_' :: rest := by
    rintro ⟨rest, h⟩
    have h2 : readerAtFOOX.peek.line.tag.data = ['F', 'O', 'O', 'X'] := by decide
    rw [h2] at h
    exact absurd (List.cons.inj h).1 (by decide)
  ⟨by decide, hg, by decide, hx,
    Record_unknown_tag_is_error sampleBuilders readerAtFOOX 0 (by decide) hg (by decide) hx⟩

/-! ## After a structural error -/

theorem loop_invalid_level (b : builders P B) (hb : b.clean) :
    ∀ (fuel : Nat) (r : Reader) (lines : List line) (last : Nat)
      (out : Option (Record P B) × Option GoError) (r' : Reader) (e : GoError),
      r.clean → last + r.t.length + 1 < 2 ^ 64 →
      Reader.loop b fuel r lines last = some (out, r') →
      out.2 = some e → e.structural = true → 2 ≤ r'.line.level := by
  intro fuel
  induction fuel with
  | zero =>
    intro r lines last out r' e _ _ h
    simp [Reader.loop] at h
  | succ f ih =>
    intro r lines last out r' e hc hlen h he hs
    rw [Reader.loop] at h
    cases herr : r.err with
    | some e' =>
      simp only [herr, Option.some.injEq, Prod.mk.injEq] at h
      obtain ⟨hout, _⟩ := h
      rw [← hout] at he
      simp only [Option.some.injEq] at he
      subst he
      have := hc.1 e' herr
      rw [hs] at this
      cases this
    | none =>
      simp only [herr] at h
      have hmod : (last + 1) % 2 ^ 64 = last + 1 := Nat.mod_eq_of_lt (by omega)
      split_ifs at h with hj h0
      · simp only [Option.some.injEq, Prod.mk.injEq] at h
        obtain ⟨_, hr'⟩ := h
        subst hr'
        rw [hmod] at hj
        omega
      · simp only [Option.some.injEq, Prod.mk.injEq] at h
        obtain ⟨hout, _⟩ := h
        rw [← hout] at he
        have := dispatch_clean b hb _ e he
        rw [hs] at this
        cases this
      · have hle := (readLine_length r).1
        rw [hmod] at hj
        refine ih r.readLine _ _ out r' e (readLine_clean r hc) ?_ h he hs
        cases h1 : r.readLine.err with
        | none =>
          have := (readLine_length r).2 herr h1
          omega
        | some e1 =>
          exfalso
          cases f with
          | zero => simp [Reader.loop] at h
          | succ f' =>
            rw [Reader.loop] at h
            simp only [h1, Option.some.injEq, Prod.mk.injEq] at h
            obtain ⟨hout, _⟩ := h
            rw [← hout] at he
            simp only [Option.some.injEq] at he
            subst he
            have := (readLine_clean r hc).1 e1 h1
            rw [hs] at this
            cases this

theorem phase_err (r : Reader) : r.phase.err = r.err := by
  rw [phase_eq]

theorem Record_invalid_again (b : builders P B) (r : Reader) (hp : r.peeked = true)
    (h0 : r.err = none) (hh : r.hadHeader = true) (htag : r.line.tag ≠ "TRLR")
    (hl : 2 ≤ r.line.level) :
    Reader.Record b r = some ((none, some GoError.ErrInvalidLevel), r.phase) := by
  have hpeek := peek_of_peeked r hp
  have hstart : r.peek.startsGroup = true := by
    rw [hpeek]
    unfold Reader.startsGroup
    simp [hh, htag]
  rw [Record_starts b r (by rw [hpeek]; exact h0) hstart, hpeek]
  unfold Reader.group
  rw [Reader.loop]
  have hj : r.phase.line.level > (0 + 1) % 2 ^ 64 := by
    rw [phase_line]
    have : (0 + 1) % 2 ^ 64 = 1 := by norm_num
    omega
  simp only [phase_err, h0, hj, if_true]

theorem calls_invalid_again (b : builders P B) (k : Nat) :
    ∀ r : Reader, r.peeked = true → r.err = none → r.hadHeader = true →
      r.line.tag ≠ "TRLR" → 2 ≤ r.line.level →
      Reader.calls b k r = List.replicate k (none, some GoError.ErrInvalidLevel) := by
  induction k with
  | zero => intro r _ _ _ _ _; rfl
  | succ k ih =>
    intro r hp h0 hh htag hl
    have hf := phase_flags r
    simp only [Reader.calls, Record_invalid_again b r hp h0 hh htag hl, List.replicate_succ]
    congr 1
    exact ih r.phase (hf.1.trans hp) ((phase_err r).trans h0) hf.2.1
      (by rw [phase_line]; exact htag) (by rw [phase_line]; exact hl)

theorem peek_length_le (r : Reader) : r.peek.t.length ≤ r.t.length := by
  obtain ⟨k, hk⟩ := peek_drop r
  rw [hk, List.length_drop]
  omega

theorem Record_structural_sites (b : builders P B) (r r' : Reader)
    (out : Option (Record P B) × Option GoError) (e : GoError)
    (hb : b.clean) (hc : r.clean) (hlen : r.t.length + 1 < 2 ^ 64)
    (h : Reader.Record b r = some (out, r')) (he : out.2 = some e)
    (hs : e.structural = true) :
    out.1 = none ∧ r'.err = none ∧
      ((e = GoError.ErrNoHeader ∧ r'.peeked = false ∧ r'.hadHeader = false ∧
          r.hadHeader = false ∧ r'.hadRecord = r.hadRecord) ∨
       (e = GoError.ErrNoRecords ∧ r'.peeked = false ∧ r'.hadHeader = true ∧
          r.hadHeader = true ∧ r'.hadRecord = false ∧ r.hadRecord = false) ∨
       (e = GoError.ErrInvalidLevel ∧ r'.peeked = true ∧ r'.hadHeader = true ∧
          2 ≤ r'.line.level)) := by
  have hq := peek_clean r hc
  have hpk := peek_peeked r
  have hfl := peek_flags r
  have hql := peek_length_le r
  unfold Reader.Record at h
  generalize r.peek = q at *
  obtain ⟨t, pk, l, qe, hh, hr⟩ := q
  simp only at hpk hfl hql
  subst hpk
  cases qe with
  | some e' =>
    simp only [Option.some.injEq, Prod.mk.injEq] at h
    obtain ⟨hout, _⟩ := h
    rw [← hout] at he
    simp only [Option.some.injEq] at he
    subst he
    have := hq.1 e' rfl
    rw [hs] at this
    cases this
  | none =>
    have retGroup : ∀ q0 : Reader, q0.clean → q0.peeked = true → q0.hadHeader = true →
        q0.t = t → Reader.group b q0 = some (out, r') →
        out.1 = none ∧ r'.err = none ∧
          ((e = GoError.ErrNoHeader ∧ r'.peeked = false ∧ r'.hadHeader = false ∧
              r.hadHeader = false ∧ r'.hadRecord = r.hadRecord) ∨
           (e = GoError.ErrNoRecords ∧ r'.peeked = false ∧ r'.hadHeader = true ∧
              r.hadHeader = true ∧ r'.hadRecord = false ∧ r.hadRecord = false) ∨
           (e = GoError.ErrInvalidLevel ∧ r'.peeked = true ∧ r'.hadHeader = true ∧
              2 ≤ r'.line.level)) := by
      intro q0 hq0 hp0 hh0 ht0 h
      obtain ⟨h1, h2, h3, h4, h5, _⟩ := group_structural b hb q0 r' out e hq0 h he hs
      have hlv := loop_invalid_level b hb _ q0 _ 0 out r' e hq0
        (by rw [ht0]; omega) h he hs
      exact ⟨h1, h3, Or.inr (Or.inr ⟨h2, h4.trans hp0, h5.trans hh0, hlv⟩)⟩
    have hqc : ∀ (a c : Bool), Reader.clean ⟨t, true, l, none, a, c⟩ :=
      fun a c => ⟨by simp, hq.2⟩
    have outEq : ∀ (e0 : GoError) (q0 : Reader),
        some ((none, some e0), q0) = some (out, r') →
        out.1 = none ∧ e = e0 ∧ r' = q0 := by
      intro e0 q0 h
      simp only [Option.some.injEq, Prod.mk.injEq] at h
      obtain ⟨hout, hr'⟩ := h
      rw [← hout] at he
      simp only [Option.some.injEq] at he
      exact ⟨by rw [← hout], he.symm, hr'.symm⟩
    dsimp only at h
    cases hh <;> cases hr <;> simp only [Bool.not_false, Bool.not_true, if_true] at h
    · split_ifs at h
      · obtain ⟨h1, h2, h3⟩ := outEq _ _ h
        subst h3
        exact ⟨h1, rfl, Or.inl ⟨h2, rfl, rfl, hfl.1.symm, hfl.2⟩⟩
      · exact retGroup _ (hqc _ _) rfl rfl rfl h
    · split_ifs at h
      · obtain ⟨h1, h2, h3⟩ := outEq _ _ h
        subst h3
        exact ⟨h1, rfl, Or.inl ⟨h2, rfl, rfl, hfl.1.symm, hfl.2⟩⟩
      · exact retGroup _ (hqc _ _) rfl rfl rfl h
    · simp only [Bool.false_eq_true, if_false] at h
      split_ifs at h
      · exact retGroup _ (hqc _ _) rfl rfl rfl h
      · obtain ⟨h1, h2, h3⟩ := outEq _ _ h
        subst h3
        exact ⟨h1, rfl, Or.inr (Or.inl ⟨h2, rfl, rfl, hfl.1.symm, rfl, hfl.2.symm⟩)⟩
      · exact retGroup _ (hqc _ _) rfl rfl rfl h
    · simp only [Bool.false_eq_true, if_false] at h
      split_ifs at h
      · simp only [Option.some.injEq, Prod.mk.injEq] at h
        obtain ⟨hout, _⟩ := h
        rw [← hout] at he
        simp at he
      · exact retGroup _ (hqc _ _) rfl rfl rfl h

/-- C5 (amended).  Let no structural error come from the tokeniser or from a
record builder, let the reader hold none, and let the input have fewer than
`2^64 - 1` tokens (so that `lastlevel+1` does not wrap).  A call of `Record`
that returns `ErrNoHeader`, `ErrNoRecords` or `ErrInvalidLevel` returns no
record and stores no error.  After `ErrInvalidLevel` the offending line stays
buffered, and unless its tag is `TRLR` every later call returns
`ErrInvalidLevel` and no record again.  After `ErrNoHeader` and `ErrNoRecords`
the buffered line is dropped and the phase flags are as before, so the next
call decides on the next line of the input: it returns `ErrNoHeader` again when
that line is read without error and is not `HEAD`, and `ErrNoRecords` again
when it is another `TRLR`. -/
theorem Record_after_structural_error (b : builders P B) (r r' : Reader)
    (out : Option (Record P B) × Option GoError) (e : GoError)
    (hb : b.clean) (hc : r.clean) (hlen : r.t.length + 1 < 2 ^ 64)
    (h : Reader.Record b r = some (out, r')) (he : out.2 = some e)
    (hs : e.structural = true) :
    out.1 = none ∧ r'.err = none ∧
    (e = GoError.ErrInvalidLevel → r'.peeked = true ∧
      (r'.line.tag ≠ "TRLR" → ∀ k, Reader.calls b k r' =
        List.replicate k (none, some GoError.ErrInvalidLevel))) ∧
    (e ≠ GoError.ErrInvalidLevel →
      r'.peeked = false ∧ r'.hadHeader = r.hadHeader ∧ r'.hadRecord = r.hadRecord) ∧
    (e = GoError.ErrNoHeader → r'.peek.err = none → r'.peek.line.tag ≠ "HEAD" →
      Reader.Record b r' =
        some ((none, some GoError.ErrNoHeader), { r'.peek with peeked := false })) ∧
    (e = GoError.ErrNoRecords → r'.peek.err = none → r'.peek.line.tag = "TRLR" →
      Reader.Record b r' =
        some ((none, some GoError.ErrNoRecords), { r'.peek with peeked := false })) := by
  obtain ⟨h1, h2, hsite⟩ := Record_structural_sites b r r' out e hb hc hlen h he hs
  have hpf := peek_flags r'
  refine ⟨h1, h2, ?_, ?_, ?_, ?_⟩
  · intro hE
    rcases hsite with ⟨hx, _⟩ | ⟨hx, _⟩ | ⟨_, hp, hh, hl⟩
    · rw [hx] at hE; cases hE
    · rw [hx] at hE; cases hE
    · exact ⟨hp, fun htag k => calls_invalid_again b k r' hp h2 hh htag hl⟩
  · intro hE
    rcases hsite with ⟨_, hp, hh', hh, hr⟩ | ⟨_, hp, hh', hh, hr', hr⟩ | ⟨hx, _⟩
    · exact ⟨hp, hh'.trans hh.symm, hr⟩
    · exact ⟨hp, hh'.trans hh.symm, hr'.trans hr.symm⟩
    · exact absurd hx hE
  · intro hE herr htag
    rcases hsite with ⟨_, _, hh', _⟩ | ⟨hx, _⟩ | ⟨hx, _⟩
    · exact Record_no_header b r' herr (hpf.1.trans hh') htag
    · rw [hx] at hE; cases hE
    · rw [hx] at hE; cases hE
  · intro hE herr htag
    rcases hsite with ⟨hx, _⟩ | ⟨_, _, hh', _, hr', _⟩ | ⟨hx, _⟩
    · rw [hx] at hE; cases hE
    · exact Record_no_records_state b r' herr (hpf.1.trans hh') (hpf.2.trans hr') htag
    · rw [hx] at hE; cases hE

theorem docLevelJump_clean : (NewReader docLevelJump).clean := by
  refine ⟨by simp [NewReader], ?_⟩
  intro e he
  simp [NewReader, docLevelJump, tok] at he

theorem Record_after_structural_error_witness :
    sampleBuilders.clean ∧ (NewReader docLevelJump).clean ∧
    (NewReader docLevelJump).t.length + 1 < 2 ^ 64 ∧
    Reader.Record sampleBuilders (NewReader docLevelJump) =
      some ((none, some GoError.ErrInvalidLevel), readerAfterJump) ∧
    readerAfterJump.err = none ∧ readerAfterJump.peeked = true ∧
    (∀ k, Reader.calls sampleBuilders k readerAfterJump =
      List.replicate k (none, some GoError.ErrInvalidLevel)) ∧
    Reader.Record sampleBuilders (NewReader docNoHeader) =
      some ((none, some GoError.ErrNoHeader),
        { (NewReader docNoHeader).readLine with peeked := false }) ∧
    ({ (NewReader docNoHeader).readLine with peeked := false } : Reader).peeked = false :=
  have h := Record_after_structural_error sampleBuilders (NewReader docLevelJump)
    readerAfterJump (none, some GoError.ErrInvalidLevel) GoError.ErrInvalidLevel
    sampleBuilders_clean docLevelJump_clean (by decide) (by decide) rfl rfl
  have h' := Record_after_structural_error sampleBuilders (NewReader docNoHeader)
    { (NewReader docNoHeader).readLine with peeked := false }
    (none, some GoError.ErrNoHeader) GoError.ErrNoHeader sampleBuilders_clean
    docNoHeader_clean (by decide) (by decide) rfl rfl
  ⟨sampleBuilders_clean, docLevelJump_clean, by decide, by decide, h.2.1, (h.2.2.1 rfl).1,
    (h.2.2.1 rfl).2 (by decide), by decide, (h'.2.2.2.1 (by decide)).1⟩

/-- C5 (refutation).  On `0 NOTE`, `0 HEAD`, `0 INDI`, `0 TRLR` the first call
of `Record` returns `ErrNoHeader` and the second returns the header record with
a nil error.  On `0 HEAD`, `0 TRLR`, `0 INDI`, `0 TRLR` the second call returns
`ErrNoRecords` and the third and fourth return the individual and the trailer.
On `0 HEAD`, `2 TRLR`, `0 INDI`, `0 TRLR` the first call returns
`ErrInvalidLevel`, the second `ErrNoRecords` (the offending line is a `TRLR`
line), and the third and fourth return the individual and the trailer. -/
theorem Record_structural_errors_not_sticky :
    Reader.calls sampleBuilders 2 (NewReader docLateHeader) =
      [(none, some GoError.ErrNoHeader), (some (Record.built "Header"), none)] ∧
    Reader.calls sampleBuilders 4 (NewReader docEmptyThenRecords) =
      [(some (Record.built "Header"), none), (none, some GoError.ErrNoRecords),
       (some (Record.built "Individual"), none), (some Record.RecordTrailer, none)] ∧
    Reader.calls sampleBuilders 4 (NewReader docJumpThenRecords) =
      [(none, some GoError.ErrInvalidLevel), (none, some GoError.ErrNoRecords),
       (some (Record.built "Individual"), none), (some Record.RecordTrailer, none)] :=
  ⟨by decide, by decide, by decide⟩

end gedcom
